import Mathlib

/-!
Verification of the checkers-protocol repository: a shallow embedding of
`internal_types/types.py`, `internal_types/messages.py`, `server/queue.py`,
`server/game.py`, `server/user_session.py` (and the stream dispatch shared with
`client/client.py`), together with theorems settling the specification claims.

Conventions of the embedding:
- Python `bytes` values are `List Nat` (each entry one byte).
- Python `int` is `Int` where subtraction matters (ratings), `Nat` for byte values.
- Mutation is modelled by explicit state passing; every raise-before-mutate
  sequence of the source becomes an error branch returning the unchanged state.
- `random.choice` is modelled by an oracle `Nat → Nat` supplying the index of
  the chosen element (taken modulo the list length), consumed left to right.
-/

namespace Checkers

/-- Bytes on the wire and usernames (`bytes` in the source). -/
abbrev ByteStr := List Nat

/-- Source `BoardLocation`: one cell of the board (`types.py`). -/
structure BoardLocation where
  used : Bool
  promoted : Bool
  owner : Bool
deriving DecidableEq, Repr

/-- Source `BoardLocation.to_bytes`: the single byte `used<<2 | promoted<<1 | owner`. -/
def locByte (l : BoardLocation) : Nat :=
  (cond l.used 4 0) + (cond l.promoted 2 0) + (cond l.owner 1 0)

/-- Source `BoardLocation.from_bytes`: bits 2, 1, 0 of the byte. -/
def locFromByte (n : Nat) : BoardLocation :=
  ⟨n.testBit 2, n.testBit 1, n.testBit 0⟩

/-- The empty cell `BoardLocation(False, False, False)`. -/
def emptyLoc : BoardLocation := ⟨false, false, false⟩

/-- Source `Direction` enum (`types.py`): Negative = 0x00, Positive = 0x01. -/
inductive Direction where
  | Negative
  | Positive
deriving DecidableEq, Repr

/-- Source `Direction.to_one`. -/
def Direction.toOne : Direction → Int
  | .Negative => -1
  | .Positive => 1

/-- The enum's numeric value (used in the Move byte encoding). -/
def Direction.toBit : Direction → Nat
  | .Negative => 0
  | .Positive => 1

/-- Source `Direction(raw)` on a bit value: nonzero is Positive. -/
def dirOfBit (n : Nat) : Direction :=
  if n = 0 then .Negative else .Positive

/-- Source `Move` (`types.py`): start position and two diagonal direction flags. -/
structure Move where
  xPos : Nat
  yPos : Nat
  xDirection : Direction
  yDirection : Direction
deriving DecidableEq, Repr

/-- Source `Move.pos`. -/
def Move.pos (m : Move) : Int × Int := ((m.xPos : Int), (m.yPos : Int))

/-- Source `Move.after_move_pos`. -/
def Move.afterMovePos (m : Move) : Int × Int :=
  ((m.xPos : Int) + m.xDirection.toOne, (m.yPos : Int) + m.yDirection.toOne)

/-- Source `Move.after_double_move_pos`. -/
def Move.afterDoubleMovePos (m : Move) : Int × Int :=
  ((m.xPos : Int) + 2 * m.xDirection.toOne, (m.yPos : Int) + 2 * m.yDirection.toOne)

/-- Source `Move.to_bytes`: `((x&7)<<5) | ((y&7)<<2) | ((xdir&1)<<1) | (ydir&1)`. -/
def moveByte (m : Move) : Nat :=
  (m.xPos % 8) * 32 + (m.yPos % 8) * 4 + m.xDirection.toBit * 2 + m.yDirection.toBit

/-- Source `Move.from_bytes`: extracts the two 3-bit positions and two direction bits. -/
def moveFromByte (n : Nat) : Move :=
  ⟨n / 32 % 8, n / 4 % 8, dirOfBit (n / 2 % 2), dirOfBit (n % 2)⟩

/--
Source `Board`: the 8x8 grid flattened in the constructor's order,
`state[i // 8][i % 8] = locations[i]`, so index `i` holds the cell `(x, y)`
with `x = i / 8`, `y = i % 8`. A well-formed board has length 64.
-/
abbrev Board := List BoardLocation

/-- Flat index of the in-bounds coordinate pair `(x, y)`. -/
def flatIdx (x y : Int) : Nat := x.toNat * 8 + y.toNat

/--
Source `Board.__getitem__` with a coordinate pair: `KeyError` (here `none`) when a
coordinate is negative or at least 8, otherwise the stored cell.
-/
def boardGet (b : Board) (p : Int × Int) : Option BoardLocation :=
  if 0 ≤ p.1 ∧ p.1 < 8 ∧ 0 ≤ p.2 ∧ p.2 < 8 then b[flatIdx p.1 p.2]? else none

/-- Reading a cell that the caller knows is present (defaulting to the empty cell). -/
def boardGetD (b : Board) (p : Int × Int) : BoardLocation :=
  (boardGet b p).getD emptyLoc

/--
Source `Board.__setitem__`: writes the cell at the flat index. The source performs no
bounds check here; every call site writes an in-bounds coordinate.
-/
def boardSet (b : Board) (p : Int × Int) (v : BoardLocation) : Board :=
  b.set (flatIdx p.1 p.2) v

/-- Source `Board.__setitem__` at a natural-number coordinate pair (generate_game_start). -/
def boardSetNat (b : Board) (x y : Nat) (v : BoardLocation) : Board :=
  b.set (x * 8 + y) v

/-- Source `Board.generate_game_start`: 12 pieces per side on the dark squares. -/
def generateGameStart : Board :=
  (List.range 12).foldl
    (fun b i =>
      boardSetNat
        (boardSetNat b (((i % 4) * 2) + ((i / 4) % 2)) (i / 4) ⟨true, false, false⟩)
        (((i % 4) * 2) + (((i / 4) + 1) % 2)) (7 - (i / 4)) ⟨true, false, true⟩)
    (List.replicate 64 emptyLoc)

/-- Source `Board.iterate_in_order` is the flat list itself; translation maps each cell. -/
def translateLoc (x : BoardLocation) : BoardLocation :=
  ⟨x.used, x.promoted, if x.used then !x.owner else false⟩

/-- Source `Board.translate_to_other_user`. -/
def translateToOtherUser (b : Board) : Board := b.map translateLoc

/-- Source `Board.check_game_over`: every used cell is owned by the given side. -/
def checkGameOver (b : Board) (isPrimaryUser : Bool) : Bool :=
  b.all fun x => !x.used || (x.owner == isPrimaryUser)

/-- Source `Board.__apply_move_no_check`: the mutation performed after all checks pass. -/
def applyNoCheck (b : Board) (m : Move) : Board :=
  let startPos := boardGetD b m.pos
  let singlePos := boardGetD b m.afterMovePos
  let b1 := boardSet b m.pos emptyLoc
  if singlePos.used then
    let b2 := boardSet b1 m.afterDoubleMovePos startPos
    let b3 :=
      if m.afterDoubleMovePos.2 = 0 ∨ m.afterDoubleMovePos.2 = 7 then
        boardSet b2 m.afterDoubleMovePos ⟨true, true, startPos.owner⟩
      else b2
    boardSet b3 m.afterMovePos emptyLoc
  else
    let b2 := boardSet b1 m.afterMovePos startPos
    if m.afterMovePos.2 = 0 ∨ m.afterMovePos.2 = 7 then
      boardSet b2 m.afterMovePos ⟨true, true, startPos.owner⟩
    else b2

/--
Source `Board.apply_move`: all validity checks of the source, in source order; the
board is mutated only after every check has passed, so the error value carries
no board and the input board is the state after a raise.
-/
def applyMove (b : Board) (m : Move) (allowedY : Direction) (isPrimaryPlayer : Bool) :
    Except Unit Board :=
  match boardGet b m.pos, boardGet b m.afterMovePos with
  | some startPos, some singlePos =>
    if ¬ startPos.promoted = true ∧ m.yDirection ≠ allowedY then .error ()
    else if isPrimaryPlayer ≠ startPos.owner then .error ()
    else if ¬ startPos.used = true then .error ()
    else if singlePos.used then
      if singlePos.owner = startPos.owner then .error ()
      else
        match boardGet b m.afterDoubleMovePos with
        | none => .error ()
        | some afterJumpDest =>
          if afterJumpDest.used then .error () else .ok (applyNoCheck b m)
    else .ok (applyNoCheck b m)
  | _, _ => .error ()

/-- The four diagonal direction combinations, in the source's iteration order. -/
def dirCombos : List (Direction × Direction) :=
  [(.Positive, .Positive), (.Positive, .Negative), (.Negative, .Positive), (.Negative, .Negative)]

/-- Source `Board.get_possible_moves`: speculatively apply each candidate on a copy. -/
def getPossibleMoves (b : Board) (allowedY : Direction) (isPrimaryPlayer : Bool) : List Move :=
  (List.range 8).flatMap fun i =>
    (List.range 8).flatMap fun j =>
      let loc := boardGetD b ((i : Int), (j : Int))
      if loc.used ∧ loc.owner = isPrimaryPlayer then
        dirCombos.filterMap fun d =>
          let m : Move := ⟨i, j, d.1, d.2⟩
          match applyMove b m allowedY isPrimaryPlayer with
          | .ok _ => some m
          | .error _ => none
      else []

/-- The `is_required` test inside `Board.get_required_moves` (`KeyError` gives false). -/
def isRequired (b : Board) (isPrimaryPlayer : Bool) (m : Move) : Bool :=
  match boardGet b m.afterMovePos, boardGet b m.afterDoubleMovePos with
  | some movePlusOne, some movePlusTwo =>
    movePlusOne.used && (movePlusOne.owner != isPrimaryPlayer) && !movePlusTwo.used
  | _, _ => false

/-- Source `Board.get_required_moves`: possible moves filtered down to captures. -/
def getRequiredMoves (b : Board) (allowedY : Direction) (isPrimaryPlayer : Bool) : List Move :=
  (getPossibleMoves b allowedY isPrimaryPlayer).filter (isRequired b isPrimaryPlayer)

/-! ## Wire codec (`internal_types/messages.py`)

Byte strings are `List Nat`. `struct.pack` raises on out-of-range numeric
fields; the embedding writes each field's bytes by arithmetic that agrees with
`pack` on all in-range values (the validity envelope of the round-trip claim).
-/

/-- Big-endian byte string of a given length (`int.to_bytes(length, byteorder = big)`). -/
def natToBE : Nat → Nat → List Nat
  | 0, _ => []
  | n + 1, v => natToBE n (v / 256) ++ [v % 256]

/-- Big-endian value of a byte string (`int.from_bytes(raw, byteorder = big)`). -/
def beVal (l : List Nat) : Nat := l.foldl (fun a x => a * 256 + x) 0

/-- Little-endian 4-byte encoding of a `struct` format I field. -/
def u32Bytes (v : Nat) : List Nat :=
  [v % 256, v / 256 % 256, v / 65536 % 256, v / 16777216 % 256]

/-- Little-endian 4-byte decode of a `struct` format I field. -/
def u32Val (l : List Nat) : Nat :=
  l.getD 0 0 + 256 * l.getD 1 0 + 65536 * l.getD 2 0 + 16777216 * l.getD 3 0

/-- Source `struct.pack` of a 16s field: truncate to 16 bytes, right-pad with zeros. -/
def strPad16 (s : ByteStr) : ByteStr := s.take 16 ++ List.replicate (16 - s.length) 0

/-- Source `bytes_strip`: everything before the first zero byte. -/
def bytesStrip (buf : ByteStr) : ByteStr := buf.takeWhile (· ≠ 0)

/--
Source `Board.to_bytes`: the 192-bit integer with the cell at flat index i occupying
bits [3i, 3i+3) counted from the least significant end, emitted big-endian as
24 bytes.
-/
def boardVal (b : Board) : Nat := b.foldr (fun loc acc => locByte loc + 8 * acc) 0

/-- Source `Board.to_bytes`. -/
def boardToBytes (b : Board) : List Nat := natToBE 24 (boardVal b)

/--
Source `Board.from_bytes`: reads the big-endian integer and yields, as flat index j,
the 3-bit group at position 63 - j from the least significant end (the
generator iterates over reversed(range(64))).
-/
def boardFromBytes (raw : List Nat) : Board :=
  (List.range 64).map fun j => locFromByte (beVal raw / 8 ^ ((63 - j) * 3) % 8)

/-- Source `InvalidLogin.Reasons`. -/
inductive LoginReason where
  | AccountDoesNotExist
  | InvalidPassword
  | AlreadyLoggedIn
deriving DecidableEq, Repr

/-- The 1-byte value of an `InvalidLogin` reason. -/
def LoginReason.toByte : LoginReason → Nat
  | .AccountDoesNotExist => 0
  | .InvalidPassword => 1
  | .AlreadyLoggedIn => 2

/-- Source `InvalidLogin.Reasons(raw)`: a `ValueError` outside 0, 1, 2. -/
def loginReasonOfByte : Nat → Option LoginReason
  | 0 => some .AccountDoesNotExist
  | 1 => some .InvalidPassword
  | 2 => some .AlreadyLoggedIn
  | _ => none

/-- The thirteen concrete `Message` classes of `messages.py`. -/
inductive Msg where
  | connect (version : Nat) (username password : ByteStr)
  | invalidLogin (reason : LoginReason)
  | invalidVersion (highestSupported lowestSupported : Nat)
  | queuePosition (queueSize queuePos rating : Nat)
  | gameStart (opponentName : ByteStr) (opponentRating : Nat)
  | yourTurn (lastMove : Move) (board : Board)
  | makeMove (move : Move)
  | compulsoryMove (move : Move) (board : Board)
  | invalidMoveMsg (move : Move) (board : Board)
  | opponentDisconnect
  | gameOver (youWon newRating oldRating : Nat) (winningMove : Move) (board : Board)
  | reQueue
  | logOut
deriving DecidableEq, Repr

/-- Each message's type tag. -/
def Msg.tag : Msg → Nat
  | .connect .. => 0x01
  | .invalidLogin .. => 0x02
  | .invalidVersion .. => 0x0D
  | .queuePosition .. => 0x03
  | .gameStart .. => 0x04
  | .yourTurn .. => 0x05
  | .makeMove .. => 0x06
  | .compulsoryMove .. => 0x07
  | .invalidMoveMsg .. => 0x08
  | .opponentDisconnect => 0x09
  | .gameOver .. => 0x0A
  | .reQueue => 0x0B
  | .logOut => 0x0C

/-- Source `calc_size` per type tag (`calcsize` of the class fmt, excluding the tag byte). -/
def tagBodySize : Nat → Option Nat
  | 0x01 => some 33
  | 0x02 => some 1
  | 0x0D => some 2
  | 0x03 => some 12
  | 0x04 => some 20
  | 0x05 => some 25
  | 0x06 => some 1
  | 0x07 => some 25
  | 0x08 => some 25
  | 0x09 => some 0
  | 0x0A => some 34
  | 0x0B => some 0
  | 0x0C => some 0
  | _ => none

/-- Source `calc_size` of a message value. -/
def Msg.bodySize (m : Msg) : Nat := (tagBodySize m.tag).getD 0

/--
Source `Message.encode`: the tag byte followed by the packed body; nested `Move` and
`Board` fields are embedded as their own `to_bytes` output.
-/
def encodeMsg : Msg → List Nat
  | .connect version username password =>
    0x01 :: version % 256 :: (strPad16 username ++ strPad16 password)
  | .invalidLogin reason => [0x02, reason.toByte]
  | .invalidVersion hi lo => [0x0D, hi % 256, lo % 256]
  | .queuePosition sz pos rating => 0x03 :: (u32Bytes sz ++ u32Bytes pos ++ u32Bytes rating)
  | .gameStart name rating => 0x04 :: (strPad16 name ++ u32Bytes rating)
  | .yourTurn mv b => 0x05 :: moveByte mv :: boardToBytes b
  | .makeMove mv => [0x06, moveByte mv]
  | .compulsoryMove mv b => 0x07 :: moveByte mv :: boardToBytes b
  | .invalidMoveMsg mv b => 0x08 :: moveByte mv :: boardToBytes b
  | .opponentDisconnect => [0x09]
  | .gameOver won newR oldR mv b =>
    0x0A :: won % 256 :: (u32Bytes newR ++ u32Bytes oldR ++ (moveByte mv :: boardToBytes b))
  | .reQueue => [0x0B]
  | .logOut => [0x0C]

/--
The body-decoding half of each class's `parse_and_decode`, applied to the
body slice `data[1 : calc_size() + 1]`.
-/
def decodeBody (tag : Nat) (body : List Nat) : Option Msg :=
  match tag with
  | 0x01 =>
    some (.connect (body.getD 0 0)
      (bytesStrip ((body.drop 1).take 16)) (bytesStrip ((body.drop 17).take 16)))
  | 0x02 => (loginReasonOfByte (body.getD 0 0)).map .invalidLogin
  | 0x0D => some (.invalidVersion (body.getD 0 0) (body.getD 1 0))
  | 0x03 =>
    some (.queuePosition (u32Val (body.take 4)) (u32Val ((body.drop 4).take 4))
      (u32Val ((body.drop 8).take 4)))
  | 0x04 => some (.gameStart (bytesStrip (body.take 16)) (u32Val ((body.drop 16).take 4)))
  | 0x05 => some (.yourTurn (moveFromByte (body.getD 0 0)) (boardFromBytes ((body.drop 1).take 24)))
  | 0x06 => some (.makeMove (moveFromByte (body.getD 0 0)))
  | 0x07 =>
    some (.compulsoryMove (moveFromByte (body.getD 0 0)) (boardFromBytes ((body.drop 1).take 24)))
  | 0x08 =>
    some (.invalidMoveMsg (moveFromByte (body.getD 0 0)) (boardFromBytes ((body.drop 1).take 24)))
  | 0x09 => some .opponentDisconnect
  | 0x0A =>
    some (.gameOver (body.getD 0 0) (u32Val ((body.drop 1).take 4)) (u32Val ((body.drop 5).take 4))
      (moveFromByte (body.getD 9 0)) (boardFromBytes ((body.drop 10).take 24)))
  | 0x0B => some .reQueue
  | 0x0C => some .logOut
  | _ => none

/--
Source `message_to_type(data).parse_and_decode(data)`: dispatch on the leading tag
byte (unknown tag: `KeyError`), require at least `calc_size() + 1` bytes
(`NotEnoughData` otherwise), then decode the body slice. All failures are
`none`.
-/
def decodeMsg (data : List Nat) : Option Msg :=
  match data with
  | [] => none
  | tagByte :: _ =>
    match tagBodySize tagByte with
    | none => none
    | some size =>
      if data.length < size + 1 then none
      else decodeBody tagByte ((data.drop 1).take size)

/-! ## Stream dispatch (`Session.__on_data` and `Client.__on_data`)

After handling one message the handler re-invokes itself on
`data[msg.calc_size():]` whenever `len(data) > msg.calc_size() + 1`.
-/

/--
One `__on_data` round: decode the leading message and compute the buffer the
handler is re-invoked on, exactly as the source slices it (`data.drop
(msg.calc_size())`, without the tag byte's +1).
-/
def onDataStep (data : List Nat) : Option (Msg × Option (List Nat)) :=
  match decodeMsg data with
  | none => none
  | some msg =>
    some (msg, if data.length > msg.bodySize + 1 then some (data.drop msg.bodySize) else none)

/--
Modelled from the spec: the remainder the claim says the handler re-invokes
decoding on - the buffer minus the full first message (1 tag byte plus body).
-/
def claimedRemainder (data : List Nat) (msg : Msg) : List Nat :=
  data.drop (msg.bodySize + 1)

/-- Driving `__on_data` to completion: the list of messages handled in order. -/
def streamRun : Nat → List Nat → Option (List Msg)
  | 0, _ => none
  | fuel + 1, data =>
    match onDataStep data with
    | none => some []
    | some (msg, none) => some [msg]
    | some (msg, some rest) => (streamRun fuel rest).map (msg :: ·)

/-! ## Matchmaking queue (`server/queue.py`)

A queued session is its username (the identity `Session.__eq__` compares)
plus its rating. -/

/-- A session as the queue and game see it. -/
structure Player where
  username : ByteStr
  rating : Int
deriving DecidableEq, Repr

/-- Queue errors. -/
inductive QueueErr where
  | queueTooSmall
  | scanFailed
deriving DecidableEq, Repr

/-- Source `abs(user.rating - inner_user.rating)` for an ordered pair. -/
def ratingDiff (p : Player × Player) : Int := |p.1.rating - p.2.rating|

/-- The ordered pairs visited by the two nested for loops, in iteration order. -/
def allPairs (users : List Player) : List (Player × Player) :=
  users.flatMap fun u => users.map fun v => (u, v)

/-- One step of the scan: skip same-username pairs, keep the first strict minimum. -/
def scanStep (acc : Option (Player × Player) × Int) (p : Player × Player) :
    Option (Player × Player) × Int :=
  if p.1.username = p.2.username then acc
  else if ratingDiff p < acc.2 then (some p, ratingDiff p) else acc

/-- The nested scan of `pop_closest_pair`, starting from `smallest_diff = 100000000`. -/
def scanBest (users : List Player) : Option (Player × Player) × Int :=
  (allPairs users).foldl scanStep (none, 100000000)

/-- Source `list.remove` with `Session.__eq__`: drop the first entry with the given username. -/
def removeByName (u : ByteStr) : List Player → List Player
  | [] => []
  | x :: xs => if x.username = u then xs else x :: removeByName u xs

/--
Source `UserQueue.pop_closest_pair`: `QueueTooSmall` below two entries; otherwise the
scanned best pair is dequeued and returned. When no pair beats the initial
sentinel the source dequeues `None` and crashes with an uncaught exception,
modelled as the distinct error `scanFailed`.
-/
def popClosestPair (users : List Player) : Except QueueErr ((Player × Player) × List Player) :=
  if users.length < 2 then .error .queueTooSmall
  else
    match (scanBest users).1 with
    | none => .error .scanFailed
    | some (a, b) => .ok ((a, b), removeByName b.username (removeByName a.username users))

/-! ## Game engine (`server/game.py`)

The engine holds the two players, the board and whose turn it is; sessions are
identified by username (both `Session.__eq__` and `Game.__is_primary` compare
usernames). Calls out to sessions are recorded as events. -/

/-- The session callbacks the engine performs, with their payloads. -/
inductive GameEvent where
  | gameStartEvt (toUser : ByteStr) (oppName : ByteStr) (oppRating : Int)
  | requestMove (toUser : ByteStr) (lastMove : Move) (board : Board)
  | compulsoryEvt (toUser : ByteStr) (move : Move) (board : Board)
  | gameEndEvt (toUser : ByteStr) (lastMove : Move) (board : Board) (ratingChange : Int)
      (winner : Bool)
deriving DecidableEq, Repr

/-- The mutable state of a `Game`. -/
structure GameState where
  playerOne : Player
  playerTwo : Player
  board : Board
  nextToGo : ByteStr
deriving DecidableEq, Repr

/-- Source `Game.__is_primary`: username comparison against player one. -/
def isPrimaryIn (g : GameState) (u : ByteStr) : Bool := u == g.playerOne.username

/-- Source `Game.__get_allowed_direction`. -/
def allowedDirFor (g : GameState) (u : ByteStr) : Direction :=
  if isPrimaryIn g u then .Negative else .Positive

/-- Source `Game.__get_opponent`. -/
def opponentOf (g : GameState) (u : ByteStr) : Player :=
  if isPrimaryIn g u then g.playerTwo else g.playerOne

/-- Source `Game.get_board`: the raw board for the primary seat, translated otherwise. -/
def getBoardFor (g : GameState) (u : ByteStr) : Board :=
  if isPrimaryIn g u then g.board else translateToOtherUser g.board

/-- The allowed direction of a seat given only its primary flag. -/
def dirOfSide (isPrimarySeat : Bool) : Direction :=
  if isPrimarySeat then .Negative else .Positive

/-- The sentinel last-move sent with the very first move request. -/
def sentinelMove : Move := ⟨0, 0, .Negative, .Negative⟩

/--
Source `Game.__init__`: fails when the usernames coincide; otherwise seats the
lower-rated proposed player as player one (on a tie, the second constructor
argument), notifies both constructor arguments of the game start in argument
order, and requests the first move from player one with the sentinel move and
the fresh board.
-/
def gameInit (pOne pTwo : Player) : Except Unit (GameState × List GameEvent) :=
  if pOne.username = pTwo.username then .error ()
  else
    let one := if pOne.rating < pTwo.rating then pOne else pTwo
    let two := if pOne.rating < pTwo.rating then pTwo else pOne
    let g : GameState := ⟨one, two, generateGameStart, one.username⟩
    .ok (g, [.gameStartEvt pOne.username pTwo.username pTwo.rating,
             .gameStartEvt pTwo.username pOne.username pOne.rating,
             .requestMove one.username sentinelMove g.board])

/-- One compulsory-move application, as recorded in the run trace. -/
structure CompStep where
  sideIsPrimary : Bool
  boardBefore : Board
  move : Move
  boardAfter : Board
deriving DecidableEq, Repr

/--
The while loop of `Game.__process_game_state` as a fuelled recursion over the
current candidate list. Arguments past the fuel and oracle index: the game
state, the mover's direction and seat, the current `compulsive_moves` list,
`piece_to_move` and the last compulsory move. Returns the updated state, the
notification events, the trace of applications, the last move, the pin and the
next oracle index.
-/
def processLoop (oracle : Nat → Nat) :
    Nat → Nat → GameState → Direction → Bool → List Move → Option (Int × Int) → Option Move →
    Option (GameState × List GameEvent × List CompStep × Option Move × Option (Int × Int) × Nat)
  | 0, _, _, _, _, _, _, _ => none
  | fuel + 1, k, g, dir, prim, cands, pin, last =>
    match cands with
    | [] => some (g, [], [], last, pin, k)
    | c :: cs =>
      let mv := (c :: cs).getD (oracle k % (c :: cs).length) c
      match applyMove g.board mv dir prim with
      | .error _ => none
      | .ok board' =>
        let g' := { g with board := board' }
        let evs : List GameEvent :=
          [.compulsoryEvt g.playerOne.username mv (getBoardFor g' g.playerOne.username),
           .compulsoryEvt g.playerTwo.username mv (getBoardFor g' g.playerTwo.username)]
        let pin' := mv.afterDoubleMovePos
        let cands' := (getRequiredMoves board' dir prim).filter (fun x => x.pos == pin')
        match processLoop oracle fuel (k + 1) g' dir prim cands' (some pin') (some mv) with
        | none => none
        | some (g2, evs2, steps2, last2, pin2, k2) =>
          some (g2, evs ++ evs2, ⟨prim, g.board, mv, board'⟩ :: steps2, last2, pin2, k2)

/--
Source `Game.__process_game_state`: run the compulsory-move loop for the side to
move; if at least one compulsory move was made, pass the turn to the opponent
and recurse, combining the last moves with Python's `or`.
-/
def processGameState (oracle : Nat → Nat) :
    Nat → Nat → GameState →
    Option (GameState × List GameEvent × List CompStep × Option Move × Nat)
  | 0, _, _ => none
  | fuel + 1, k, g =>
    let dir := allowedDirFor g g.nextToGo
    let prim := isPrimaryIn g g.nextToGo
    match processLoop oracle fuel k g dir prim (getRequiredMoves g.board dir prim) none none with
    | none => none
    | some (g1, evs, steps, last, pin, k1) =>
      match pin with
      | none => some (g1, evs, steps, last, k1)
      | some _ =>
        let g2 := { g1 with nextToGo := (opponentOf g1 g1.nextToGo).username }
        match processGameState oracle fuel k1 g2 with
        | none => none
        | some (g3, evs3, steps3, last3, k3) =>
          some (g3, evs ++ evs3, steps ++ steps3, last3 <|> last, k3)

/-- Engine-level errors of `Game.apply_move` (`InvalidMoveException`), plus fuel exhaustion. -/
inductive GameErr where
  | invalidMoveErr
  | outOfFuel
deriving DecidableEq, Repr

/-- Source `Game.__finish_game`: notify winner then loser, ratings moving by 10. -/
def finishEvents (g : GameState) (winner : ByteStr) (lastMove : Move) : List GameEvent :=
  [.gameEndEvt winner lastMove (getBoardFor g winner) 10 true,
   .gameEndEvt (opponentOf g winner).username lastMove (getBoardFor g (opponentOf g winner).username)
     (-10) false]

/--
Source `Game.apply_move`: out-of-turn and board-rejected moves raise before any
mutation (the returned state is the input state); on success the turn passes
to the opponent, game-state processing runs, then either a winner is
announced or the next mover is asked for a move with the last move made.
-/
def gameApplyMove (oracle : Nat → Nat) (fuel k : Nat) (g : GameState) (mv : Move)
    (user : ByteStr) :
    Except GameErr (List GameEvent × List CompStep) × GameState :=
  if g.nextToGo ≠ user then (.error .invalidMoveErr, g)
  else
    match applyMove g.board mv (allowedDirFor g user) (isPrimaryIn g user) with
    | .error _ => (.error .invalidMoveErr, g)
    | .ok board' =>
      let g1 := { g with board := board', nextToGo := (opponentOf g user).username }
      match processGameState oracle fuel k g1 with
      | none => (.error .outOfFuel, g1)
      | some (g2, evs, steps, last, _) =>
        let lastMove := last.getD mv
        if checkGameOver g2.board true then
          (.ok (evs ++ finishEvents g2 g2.playerOne.username lastMove, steps), g2)
        else if checkGameOver g2.board false then
          (.ok (evs ++ finishEvents g2 g2.playerTwo.username lastMove, steps), g2)
        else
          (.ok (evs ++ [.requestMove g2.nextToGo lastMove (getBoardFor g2 g2.nextToGo)], steps), g2)

/-! ## Server session (`server/user_session.py`)

The session state carries the protocol state, the identity fields and whether
a game is attached; handlers return the updated session, the updated queue,
the replies written to the socket, and whether the connection was closed. -/

/-- Source `ProtocolState` (`internal_types/states.py`). -/
inductive ProtocolState where
  | UNAUTHENTICATED
  | IN_QUEUE
  | PROCESSING_GAME_STATE
  | USER_MOVE
  | GAME_END
deriving DecidableEq, Repr

/-- The per-connection session variables. -/
structure SessionState where
  phase : ProtocolState
  username : Option ByteStr
  rating : Option Int
  hasGame : Bool
deriving DecidableEq, Repr

/-- Replies a session writes to its socket, with semantic payloads. -/
inductive SessionReply where
  | invalidLoginR (reason : LoginReason)
  | invalidVersionR (highArg lowArg : Nat)
  | queuePositionR (queueSize queuePos : Nat) (rating : Int)
  | opponentDisconnectR
deriving DecidableEq, Repr

/-- The outcome of one server-side message handler invocation. -/
structure HandlerResult where
  session : SessionState
  queue : List ByteStr
  sends : List SessionReply
  closed : Bool
deriving DecidableEq, Repr

/-- What `Database.auth_user` can do. -/
inductive AuthResult where
  | authOk
  | userDoesNotExist
  | invalidPassword
deriving DecidableEq, Repr

/-- The database as the session sees it. -/
structure ServerEnv where
  auth : ByteStr → ByteStr → AuthResult
  ratingOf : ByteStr → Int

/-- Source `Session.supported_versions = [1]`. -/
def supportedVersions : List Nat := [1]

/--
Source `Session.disconnect(force = False)` as it affects this session and the queue:
dequeue if enqueued, reset the session variables, close the socket. (When a
game is attached the opponent is notified through the game object, outside
this session's state.)
-/
def sessionDisconnect (s : SessionState) (queue : List ByteStr) : HandlerResult :=
  let q' :=
    match s.username with
    | some u => if u ∈ queue then queue.erase u else queue
    | none => queue
  ⟨⟨.UNAUTHENTICATED, none, none, false⟩, q', [], true⟩

/--
Source `Session.__msg_on_unauthenticated`: only `Connect` is legal. Unsupported
versions get `InvalidVersion(min, max)`; database failures get the matching
`InvalidLogin` reason; on successful authentication the username and rating
fields are assigned BEFORE enqueueing, so a `DuplicateUser` from the queue
(username already enqueued) leaves them assigned while the state stays
`UNAUTHENTICATED` and an `InvalidLogin(AlreadyLoggedIn)` reply is sent.
-/
def msgOnUnauthenticated (env : ServerEnv) (queue : List ByteStr) (s : SessionState)
    (msg : Msg) : HandlerResult :=
  match msg with
  | .connect version uname pwd =>
    if version ∉ supportedVersions then
      ⟨s, queue, [.invalidVersionR 1 1], false⟩
    else
      match env.auth uname pwd with
      | .userDoesNotExist => ⟨s, queue, [.invalidLoginR .AccountDoesNotExist], false⟩
      | .invalidPassword => ⟨s, queue, [.invalidLoginR .InvalidPassword], false⟩
      | .authOk =>
        let s1 := { s with username := some uname, rating := some (env.ratingOf uname) }
        if uname ∈ queue then
          ⟨s1, queue, [.invalidLoginR .AlreadyLoggedIn], false⟩
        else
          let queue' := queue ++ [uname]
          ⟨{ s1 with phase := .IN_QUEUE }, queue',
           [.queuePositionR queue'.length (queue'.indexOf uname + 1) (env.ratingOf uname)], false⟩
  | _ =>
    sessionDisconnect s queue

/--
Source `Session.on_opponent_disconnect`: legal only in `PROCESSING_GAME_STATE` or
`USER_MOVE` (anything else takes the session-error disconnect path, `none`
here); sends `OpponentDisconnect`, detaches the game and enters `GAME_END`.
-/
def onOpponentDisconnect (s : SessionState) : Option (SessionState × List SessionReply) :=
  if s.phase = .PROCESSING_GAME_STATE ∨ s.phase = .USER_MOVE then
    some ({ s with hasGame := false, phase := .GAME_END }, [.opponentDisconnectR])
  else none

/--
Source `Session.__msg_on_game_end`: a `MakeMove` is logged and ignored in both of
its branches (desync leniency when no game is attached, a logged warning when
one still is) - the session state, queue and socket are untouched; `ReQueue`
re-enqueues (an already-enqueued username would raise `DuplicateUser`, `none`
here); `LogOut` clears the identity; every other message disconnects.
-/
def msgOnGameEnd (s : SessionState) (queue : List ByteStr) (msg : Msg) :
    Option HandlerResult :=
  match msg with
  | .makeMove _ => some ⟨s, queue, [], false⟩
  | .reQueue =>
    let u := s.username.getD []
    if u ∈ queue then none
    else
      let queue' := queue ++ [u]
      some ⟨{ s with phase := .IN_QUEUE }, queue',
        [.queuePositionR queue'.length (queue'.indexOf u + 1) (s.rating.getD 0)], false⟩
  | .logOut =>
    some ⟨⟨.UNAUTHENTICATED, none, none, false⟩, queue, [], false⟩
  | _ => some (sessionDisconnect s queue)

/-! ## Claim-side definitions

Predicates transcribed from the claims' wording, to be related to the
source-side functions above. -/

/--
The rejection conditions listed by the spec for `apply_move`: start or
single-step landing out of bounds; start unused; mover does not own the start
piece; unpromoted piece moving against its allowed y-direction; single-step
destination held by a same-owner piece; single-step destination held by an
opposing piece with the double-step landing out of bounds or occupied.
-/
def moveRejected (b : Board) (m : Move) (allowedY : Direction) (isPrimaryPlayer : Bool) : Prop :=
  boardGet b m.pos = none ∨
  boardGet b m.afterMovePos = none ∨
  (∃ s, boardGet b m.pos = some s ∧ s.used = false) ∨
  (∃ s, boardGet b m.pos = some s ∧ isPrimaryPlayer ≠ s.owner) ∨
  (∃ s, boardGet b m.pos = some s ∧ s.promoted = false ∧ m.yDirection ≠ allowedY) ∨
  (∃ s t, boardGet b m.pos = some s ∧ boardGet b m.afterMovePos = some t ∧
    t.used = true ∧ t.owner = s.owner) ∨
  (∃ s t, boardGet b m.pos = some s ∧ boardGet b m.afterMovePos = some t ∧
    t.used = true ∧ t.owner ≠ s.owner ∧
    (boardGet b m.afterDoubleMovePos = none ∨
      ∃ u, boardGet b m.afterDoubleMovePos = some u ∧ u.used = true))

/--
The square the moved piece lands on: the double-step square when the
single-step square holds a piece (a capture), the single-step square
otherwise.
-/
def landingPos (b : Board) (m : Move) : Int × Int :=
  if (boardGetD b m.afterMovePos).used then m.afterDoubleMovePos else m.afterMovePos

/-- Every unused cell carries owner = false. -/
def NormalizedBoard (b : Board) : Prop := ∀ x ∈ b, x.used = false → x.owner = false

/--
Adjacent compulsory-move applications: the later one starts from the board
the earlier one produced; on the same side it must move the piece from the
earlier capture's landing square; the side changes only once the pinned
continuation list is empty.
-/
def stepLink (s1 s2 : CompStep) : Prop :=
  s2.boardBefore = s1.boardAfter ∧
  (s1.sideIsPrimary = s2.sideIsPrimary → s2.move.pos = s1.move.afterDoubleMovePos) ∧
  (s1.sideIsPrimary ≠ s2.sideIsPrimary →
    (getRequiredMoves s1.boardAfter (dirOfSide s1.sideIsPrimary) s1.sideIsPrimary).filter
      (fun x => x.pos == s1.move.afterDoubleMovePos) = [])

/--
The two session notifications a compulsory move produces: player one receives
the raw new board, player two its translated view.
-/
def stepNotifs (pOneName pTwoName : ByteStr) (st : CompStep) : List GameEvent :=
  [.compulsoryEvt pOneName st.move st.boardAfter,
   .compulsoryEvt pTwoName st.move (translateToOtherUser st.boardAfter)]

/-- A concrete single-piece board whose flat order is not a palindrome. -/
def c1FailBoard : Board := boardSetNat (List.replicate 64 emptyLoc) 0 0 ⟨true, false, false⟩

/-- A concrete `YourTurn` message carrying that board. -/
def c1FailMsg : Msg := .yourTurn sentinelMove c1FailBoard

/-- A database that accepts every login with rating 1200. -/
def demoEnv : ServerEnv := ⟨fun _ _ => .authOk, fun _ => 1200⟩

/-- A concrete capture position: a primary piece at (3,3), an opposing piece at (2,2). -/
def c4Board : Board :=
  boardSetNat (boardSetNat (List.replicate 64 emptyLoc) 3 3 ⟨true, false, true⟩)
    2 2 ⟨true, false, false⟩

/-- The capture from (3,3) over (2,2). -/
def c4Move : Move := ⟨3, 3, .Negative, .Negative⟩

/-- A game holding that position with the primary player to move. -/
def c4Game : GameState := ⟨⟨[97], 1200⟩, ⟨[98], 1201⟩, c4Board, [97]⟩

/-! ## Board access lemmas -/

theorem boardGet_bounds {b : Board} {p : Int × Int} {v : BoardLocation}
    (h : boardGet b p = some v) :
    (0 ≤ p.1 ∧ p.1 < 8 ∧ 0 ≤ p.2 ∧ p.2 < 8) ∧ flatIdx p.1 p.2 < b.length := by
  unfold boardGet at h
  split at h
  · next hb =>
    refine ⟨hb, ?_⟩
    rcases List.getElem?_eq_some.1 h with ⟨hlt, _⟩
    exact hlt
  · exact absurd h (by simp)

theorem boardSet_length (b : Board) (p : Int × Int) (v : BoardLocation) :
    (boardSet b p v).length = b.length := by
  unfold boardSet
  exact List.length_set ..

theorem flatIdx_inj {p q : Int × Int}
    (hp : 0 ≤ p.1 ∧ p.1 < 8 ∧ 0 ≤ p.2 ∧ p.2 < 8)
    (hq : 0 ≤ q.1 ∧ q.1 < 8 ∧ 0 ≤ q.2 ∧ q.2 < 8)
    (h : flatIdx p.1 p.2 = flatIdx q.1 q.2) : p = q := by
  unfold flatIdx at h
  obtain ⟨hp0, hp1, hp2, hp3⟩ := hp
  obtain ⟨hq0, hq1, hq2, hq3⟩ := hq
  have h1 : p.1 = q.1 := by omega
  have h2 : p.2 = q.2 := by omega
  exact Prod.ext h1 h2

theorem boardGet_set_self {b : Board} {p : Int × Int}
    (hb : 0 ≤ p.1 ∧ p.1 < 8 ∧ 0 ≤ p.2 ∧ p.2 < 8) (hl : flatIdx p.1 p.2 < b.length)
    (v : BoardLocation) : boardGet (boardSet b p v) p = some v := by
  unfold boardGet boardSet
  rw [if_pos hb]
  exact List.getElem?_set_self hl

theorem boardGet_set_ne {b : Board} {p q : Int × Int}
    (hp : 0 ≤ p.1 ∧ p.1 < 8 ∧ 0 ≤ p.2 ∧ p.2 < 8) (hne : p ≠ q) (v : BoardLocation) :
    boardGet (boardSet b p v) q = boardGet b q := by
  unfold boardGet boardSet
  split
  · next hq =>
    refine List.getElem?_set_ne ?_
    intro hidx
    exact hne (flatIdx_inj hp hq hidx)
  · rfl

theorem move_single_ne_double (m : Move) : m.afterMovePos ≠ m.afterDoubleMovePos := by
  unfold Move.afterMovePos Move.afterDoubleMovePos
  cases m.xDirection <;> simp [Direction.toOne]

theorem move_pos_ne_single (m : Move) : m.pos ≠ m.afterMovePos := by
  unfold Move.pos Move.afterMovePos
  cases m.xDirection <;> simp [Direction.toOne]

theorem move_pos_ne_double (m : Move) : m.pos ≠ m.afterDoubleMovePos := by
  unfold Move.pos Move.afterDoubleMovePos
  cases m.xDirection <;> simp [Direction.toOne]

end Checkers

namespace Checkers

/-! ## C3: apply_move rejection conditions -/

theorem applyMove_error_iff (b : Board) (m : Move) (allowedY : Direction) (prim : Bool) :
    applyMove b m allowedY prim = .error () ↔ moveRejected b m allowedY prim := by
  unfold applyMove moveRejected
  rcases hs : boardGet b m.pos with _ | s <;> rcases ht : boardGet b m.afterMovePos with _ | t
  · simp [hs, ht]
  · simp [hs, ht]
  · simp [hs, ht]
  · simp only [hs, ht, Option.some.injEq]
    rcases hd : boardGet b m.afterDoubleMovePos with _ | u
    · simp only [hd]
      split_ifs with h1 h2 h3 h4 h5 <;> simp_all
    · simp only [hd, Option.some.injEq]
      split_ifs with h1 h2 h3 h4 h5 h6 <;> simp_all

end Checkers

namespace Checkers

theorem gameApplyMove_wrong_user (oracle : Nat → Nat) (fuel k : Nat) (g : GameState)
    (mv : Move) (user : ByteStr) (h : g.nextToGo ≠ user) :
    gameApplyMove oracle fuel k g mv user = (.error .invalidMoveErr, g) := by
  unfold gameApplyMove
  rw [if_pos h]

theorem gameApplyMove_board_reject (oracle : Nat → Nat) (fuel k : Nat) (g : GameState)
    (mv : Move) (user : ByteStr) (hu : g.nextToGo = user)
    (hrej : applyMove g.board mv (allowedDirFor g user) (isPrimaryIn g user) = .error ()) :
    gameApplyMove oracle fuel k g mv user = (.error .invalidMoveErr, g) := by
  unfold gameApplyMove
  rw [if_neg (by simp [hu]), hrej]

/--
C3: `Board.apply_move` raises `InvalidMove` exactly when one of the listed
conditions holds (the board, mutated only after all checks, is unchanged on a
raise), and `Game.apply_move` by a session that is not `nextToGo`, or with a
board-rejected move, fails with the game state - board and turn - unchanged.
-/
theorem claim_C3_applyMove_rejection (b : Board) (m : Move) (allowedY : Direction) (prim : Bool)
    (oracle : Nat → Nat) (fuel k : Nat) (g : GameState) (mv : Move) (user : ByteStr) :
    (applyMove b m allowedY prim = .error () ↔ moveRejected b m allowedY prim) ∧
    (g.nextToGo ≠ user →
      gameApplyMove oracle fuel k g mv user = (.error .invalidMoveErr, g)) ∧
    (g.nextToGo = user →
      applyMove g.board mv (allowedDirFor g user) (isPrimaryIn g user) = .error () →
      gameApplyMove oracle fuel k g mv user = (.error .invalidMoveErr, g)) := by
  exact ⟨applyMove_error_iff b m allowedY prim,
    fun h => gameApplyMove_wrong_user oracle fuel k g mv user h,
    fun hu hrej => gameApplyMove_board_reject oracle fuel k g mv user hu hrej⟩

end Checkers

namespace Checkers

/--
Witness for C3 at a concrete game: player one is out of turn for user b, and
the sentinel move from the start board is board-rejected for player one
(moving an opposing piece).
-/
theorem claim_C3_witness :
    (applyMove generateGameStart sentinelMove .Negative true = .error () ↔
      moveRejected generateGameStart sentinelMove .Negative true) ∧
    gameApplyMove (fun _ => 0) 2 0
        ⟨⟨[97], 1200⟩, ⟨[98], 1201⟩, generateGameStart, [97]⟩ sentinelMove [98] =
      (.error .invalidMoveErr, ⟨⟨[97], 1200⟩, ⟨[98], 1201⟩, generateGameStart, [97]⟩) ∧
    gameApplyMove (fun _ => 0) 2 0
        ⟨⟨[97], 1200⟩, ⟨[98], 1201⟩, generateGameStart, [97]⟩ sentinelMove [97] =
      (.error .invalidMoveErr, ⟨⟨[97], 1200⟩, ⟨[98], 1201⟩, generateGameStart, [97]⟩) := by
  refine ⟨(claim_C3_applyMove_rejection generateGameStart sentinelMove .Negative true
      (fun _ => 0) 2 0 ⟨⟨[97], 1200⟩, ⟨[98], 1201⟩, generateGameStart, [97]⟩ sentinelMove [98]).1,
    (claim_C3_applyMove_rejection generateGameStart sentinelMove .Negative true
      (fun _ => 0) 2 0 ⟨⟨[97], 1200⟩, ⟨[98], 1201⟩, generateGameStart, [97]⟩ sentinelMove
      [98]).2.1 (by decide),
    (claim_C3_applyMove_rejection generateGameStart sentinelMove .Negative true
      (fun _ => 0) 2 0 ⟨⟨[97], 1200⟩, ⟨[98], 1201⟩, generateGameStart, [97]⟩ sentinelMove
      [97]).2.2 (by decide) (by rfl)⟩

end Checkers

namespace Checkers

/-! ## C7: promotion on rows 0 and 7 -/

/--
C7: whenever `apply_move` accepts a move whose landing square (single-step for
a plain step, double-step for a capture) lies on row 0 or row 7, the landing
square afterwards holds a used, promoted piece of the mover's owner.
-/
theorem claim_C7_promotion (b : Board) (m : Move) (dir : Direction) (prim : Bool) (b' : Board)
    (h : applyMove b m dir prim = .ok b')
    (hrow : (landingPos b m).2 = 0 ∨ (landingPos b m).2 = 7) :
    boardGet b' (landingPos b m) = some ⟨true, true, prim⟩ := by
  unfold applyMove at h
  rcases hs : boardGet b m.pos with _ | s <;> rcases ht : boardGet b m.afterMovePos with _ | t <;>
    simp only [hs, ht] at h
  · exact absurd h (by simp)
  · exact absurd h (by simp)
  · exact absurd h (by simp)
  have hsD : boardGetD b m.pos = s := by simp [boardGetD, hs]
  have htD : boardGetD b m.afterMovePos = t := by simp [boardGetD, ht]
  obtain ⟨hbS, hlS⟩ := boardGet_bounds hs
  obtain ⟨hbT, hlT⟩ := boardGet_bounds ht
  rcases hd : boardGet b m.afterDoubleMovePos with _ | u <;> simp only [hd] at h
  -- double-step square out of bounds: only a plain step can have succeeded
  · split_ifs at h with h1 h2 h3 h4 h5 <;> try exact Except.noConfusion h
    injection h with h
    subst h
    have hprim : prim = s.owner := not_not.mp h2
    have htu : t.used = false := by
      revert h4
      cases t.used <;> simp
    have hland : landingPos b m = m.afterMovePos := by
      simp [landingPos, htD, htu]
    rw [hland] at hrow ⊢
    simp only [applyNoCheck, hsD, htD, htu, Bool.false_eq_true, if_false]
    rw [if_pos hrow, ← hprim]
    exact boardGet_set_self hbT (by simpa [boardSet_length] using hlT) _
  · split_ifs at h with h1 h2 h3 h4 h5 h6 <;> try exact Except.noConfusion h
    -- capture branch: t is an opposing used piece, u is the free landing square
    · injection h with h
      subst h
      have hprim : prim = s.owner := not_not.mp h2
      obtain ⟨hbD, hlD⟩ := boardGet_bounds hd
      have hland : landingPos b m = m.afterDoubleMovePos := by
        simp [landingPos, htD, h4]
      rw [hland] at hrow ⊢
      simp only [applyNoCheck, hsD, htD, h4, if_true]
      rw [if_pos hrow]
      rw [boardGet_set_ne hbT (move_single_ne_double m) _, ← hprim]
      exact boardGet_set_self hbD (by simpa [boardSet_length] using hlD) _
    -- plain-step branch with the double-step square in bounds
    · injection h with h
      subst h
      have hprim : prim = s.owner := not_not.mp h2
      have htu : t.used = false := by
        revert h4
        cases t.used <;> simp
      have hland : landingPos b m = m.afterMovePos := by
        simp [landingPos, htD, htu]
      rw [hland] at hrow ⊢
      simp only [applyNoCheck, hsD, htD, htu, Bool.false_eq_true, if_false]
      rw [if_pos hrow, ← hprim]
      exact boardGet_set_self hbT (by simpa [boardSet_length] using hlT) _

end Checkers

namespace Checkers

/--
Witness for C7: a capture from (3,2) over (2,1) lands on (1,0), row 0, and the
landing square holds a used, promoted piece of the mover.
-/
theorem claim_C7_witness :
    boardGet
      (applyNoCheck
        (boardSetNat (boardSetNat (List.replicate 64 emptyLoc) 3 2 ⟨true, false, true⟩)
          2 1 ⟨true, false, false⟩)
        ⟨3, 2, .Negative, .Negative⟩)
      (landingPos
        (boardSetNat (boardSetNat (List.replicate 64 emptyLoc) 3 2 ⟨true, false, true⟩)
          2 1 ⟨true, false, false⟩)
        ⟨3, 2, .Negative, .Negative⟩) = some ⟨true, true, true⟩ :=
  claim_C7_promotion
    (boardSetNat (boardSetNat (List.replicate 64 emptyLoc) 3 2 ⟨true, false, true⟩)
      2 1 ⟨true, false, false⟩)
    ⟨3, 2, .Negative, .Negative⟩ .Negative true _ (by rfl) (by decide)

end Checkers

namespace Checkers

/-! ## C10: translate_to_other_user -/

theorem boardGet_elem {b : Board} {p : Int × Int} {v : BoardLocation}
    (h : boardGet b p = some v) : b[flatIdx p.1 p.2]? = some v := by
  unfold boardGet at h
  split at h
  · exact h
  · exact absurd h (by simp)

theorem normalized_boardSet {b : Board} {p : Int × Int} {v : BoardLocation}
    (hb : NormalizedBoard b) (hv : v.used = false → v.owner = false) :
    NormalizedBoard (boardSet b p v) := by
  intro x hx hxu
  rcases List.mem_or_eq_of_mem_set hx with hx' | rfl
  · exact hb x hx' hxu
  · exact hv hxu

theorem translateLoc_involutive {x : BoardLocation} (hx : x.used = false → x.owner = false) :
    translateLoc (translateLoc x) = x := by
  obtain ⟨u, p, o⟩ := x
  cases u
  · have : o = false := hx rfl
    subst this
    rfl
  · simp [translateLoc]

/--
C10: translation preserves used and promoted everywhere, flips owner on used
cells and forces owner false on unused cells; on a board whose unused cells
all carry owner false, translating twice gives back the very board (hence
equal byte encodings); the start board is so normalized and `apply_move`
preserves normalization.
-/
theorem claim_C10_translate :
    (∀ (b : Board) (p : Int × Int) (v : BoardLocation), boardGet b p = some v →
      ∃ w, boardGet (translateToOtherUser b) p = some w ∧ w.used = v.used ∧
        w.promoted = v.promoted ∧ (v.used = true → w.owner = !v.owner) ∧
        (v.used = false → w.owner = false)) ∧
    (∀ b : Board, NormalizedBoard b →
      translateToOtherUser (translateToOtherUser b) = b ∧
      boardToBytes (translateToOtherUser (translateToOtherUser b)) = boardToBytes b) ∧
    NormalizedBoard generateGameStart ∧
    (∀ (b : Board) (m : Move) (dir : Direction) (prim : Bool) (b' : Board),
      applyMove b m dir prim = .ok b' → NormalizedBoard b → NormalizedBoard b') := by
  refine ⟨?_, ?_, ?_, ?_⟩
  · intro b p v hv
    have hb := (boardGet_bounds hv).1
    have he : b[flatIdx p.1 p.2]? = some v := boardGet_elem hv
    refine ⟨translateLoc v, ?_, rfl, rfl, ?_, ?_⟩
    · unfold boardGet translateToOtherUser
      rw [if_pos hb, List.getElem?_map, he]
      rfl
    · intro hu
      simp [translateLoc, hu]
    · intro hu
      simp [translateLoc, hu]
  · intro b hb
    have h1 : translateToOtherUser (translateToOtherUser b) = b := by
      unfold translateToOtherUser
      rw [List.map_map]
      conv_rhs => rw [← List.map_id b]
      exact List.map_congr_left fun x hx => translateLoc_involutive (hb x hx)
    exact ⟨h1, by rw [h1]⟩
  · unfold NormalizedBoard generateGameStart
    decide
  · intro b m dir prim b' h hb
    unfold applyMove at h
    rcases hs : boardGet b m.pos with _ | s <;>
      rcases ht : boardGet b m.afterMovePos with _ | t <;> simp only [hs, ht] at h
    · exact absurd h (by simp)
    · exact absurd h (by simp)
    · exact absurd h (by simp)
    have hsD : boardGetD b m.pos = s := by simp [boardGetD, hs]
    have htD : boardGetD b m.afterMovePos = t := by simp [boardGetD, ht]
    rcases hd : boardGet b m.afterDoubleMovePos with _ | u <;> simp only [hd] at h <;>
      split_ifs at h with h1 h2 h3 h4 h5 h6 <;> try exact Except.noConfusion h
    all_goals
      injection h with h
      subst h
      unfold applyNoCheck
      rw [hsD, htD]
    all_goals
      have hempt : emptyLoc.used = false → emptyLoc.owner = false := fun _ => rfl
    all_goals
      have hsn : s.used = false → s.owner = false := fun hf => absurd h3 (by rw [hf]; simp)
    -- plain step, double-step square out of bounds
    · simp only [Bool.not_eq_true] at h4
      rw [if_neg (by simp [h4])]
      split_ifs with hpr
      · exact normalized_boardSet (normalized_boardSet (normalized_boardSet hb hempt) hsn)
          (by simp)
      · exact normalized_boardSet (normalized_boardSet hb hempt) hsn
    -- capture
    · rw [if_pos h4]
      split_ifs with hpr
      · exact normalized_boardSet (normalized_boardSet (normalized_boardSet
          (normalized_boardSet hb hempt) hsn) (by simp)) hempt
      · exact normalized_boardSet (normalized_boardSet (normalized_boardSet hb hempt) hsn)
          hempt
    -- plain step with the double-step square in bounds
    · simp only [Bool.not_eq_true] at h4
      rw [if_neg (by simp [h4])]
      split_ifs with hpr
      · exact normalized_boardSet (normalized_boardSet (normalized_boardSet hb hempt) hsn)
          (by simp)
      · exact normalized_boardSet (normalized_boardSet hb hempt) hsn
end Checkers

namespace Checkers

/--
Witness for C10: the start board is normalized, double translation gives it
back, and normalization survives a concrete accepted move.
-/
theorem claim_C10_witness :
    translateToOtherUser (translateToOtherUser generateGameStart) = generateGameStart ∧
    NormalizedBoard (applyNoCheck generateGameStart ⟨0, 2, .Positive, .Positive⟩) :=
  ⟨(claim_C10_translate.2.1 generateGameStart claim_C10_translate.2.2.1).1,
   claim_C10_translate.2.2.2 generateGameStart ⟨0, 2, .Positive, .Positive⟩ .Positive false _
     (by rfl) claim_C10_translate.2.2.1⟩

end Checkers

namespace Checkers

/-! ## C5: game construction -/

/--
C5: for distinct usernames, construction seats the strictly lower-rated
session as player one (a tie seats the second argument), player one is the
primary seat, moves first, and receives the one move request, which carries
the sentinel last-move and the fresh board.
-/
theorem claim_C5_gameInit (pOne pTwo : Player) (hne : pOne.username ≠ pTwo.username) :
    ∃ g evs, gameInit pOne pTwo = .ok (g, evs) ∧
      (pOne.rating < pTwo.rating → g.playerOne = pOne ∧ g.playerTwo = pTwo) ∧
      (pTwo.rating ≤ pOne.rating → g.playerOne = pTwo ∧ g.playerTwo = pOne) ∧
      g.playerOne.rating ≤ g.playerTwo.rating ∧
      isPrimaryIn g g.playerOne.username = true ∧
      isPrimaryIn g g.playerTwo.username = false ∧
      g.nextToGo = g.playerOne.username ∧
      g.board = generateGameStart ∧
      evs = [.gameStartEvt pOne.username pTwo.username pTwo.rating,
             .gameStartEvt pTwo.username pOne.username pOne.rating,
             .requestMove g.playerOne.username sentinelMove g.board] := by
  by_cases hr : pOne.rating < pTwo.rating
  · refine ⟨⟨pOne, pTwo, generateGameStart, pOne.username⟩,
      [.gameStartEvt pOne.username pTwo.username pTwo.rating,
       .gameStartEvt pTwo.username pOne.username pOne.rating,
       .requestMove pOne.username sentinelMove generateGameStart], ?_, ?_, ?_, ?_, ?_, ?_, ?_, ?_, ?_⟩
    · simp [gameInit, hne, hr]
    · exact fun _ => ⟨rfl, rfl⟩
    · intro hle
      exact absurd hr (not_lt.mpr hle)
    · exact le_of_lt hr
    · simp [isPrimaryIn]
    · simp [isPrimaryIn]
      exact fun hcontra => hne hcontra.symm
    · rfl
    · rfl
    · rfl
  · refine ⟨⟨pTwo, pOne, generateGameStart, pTwo.username⟩,
      [.gameStartEvt pOne.username pTwo.username pTwo.rating,
       .gameStartEvt pTwo.username pOne.username pOne.rating,
       .requestMove pTwo.username sentinelMove generateGameStart], ?_, ?_, ?_, ?_, ?_, ?_, ?_, ?_, ?_⟩
    · simp [gameInit, hne, hr]
    · intro hlt
      exact absurd hlt hr
    · exact fun _ => ⟨rfl, rfl⟩
    · exact not_lt.mp hr
    · simp [isPrimaryIn]
    · simp [isPrimaryIn]
      exact fun hcontra => hne hcontra
    · rfl
    · rfl
    · rfl

/--
Witness for C5 at ratings 1200 and 1201 with distinct one-byte usernames.
-/
theorem claim_C5_witness :
    ∃ g evs, gameInit ⟨[97], 1201⟩ ⟨[98], 1200⟩ = .ok (g, evs) ∧
      (((1201 : Int) < 1200) → g.playerOne = ⟨[97], 1201⟩ ∧ g.playerTwo = ⟨[98], 1200⟩) ∧
      (((1200 : Int) ≤ 1201) → g.playerOne = ⟨[98], 1200⟩ ∧ g.playerTwo = ⟨[97], 1201⟩) ∧
      g.playerOne.rating ≤ g.playerTwo.rating ∧
      isPrimaryIn g g.playerOne.username = true ∧
      isPrimaryIn g g.playerTwo.username = false ∧
      g.nextToGo = g.playerOne.username ∧
      g.board = generateGameStart ∧
      evs = [.gameStartEvt [97] [98] 1200, .gameStartEvt [98] [97] 1201,
             .requestMove g.playerOne.username sentinelMove g.board] :=
  claim_C5_gameInit ⟨[97], 1201⟩ ⟨[98], 1200⟩ (by decide)

end Checkers

namespace Checkers

/-! ## C6: pop_closest_pair -/

theorem mem_allPairs {users : List Player} {q : Player × Player} :
    q ∈ allPairs users ↔ q.1 ∈ users ∧ q.2 ∈ users := by
  unfold allPairs
  constructor
  · intro h
    rcases List.mem_flatMap.mp h with ⟨u, hu, hq⟩
    rcases List.mem_map.mp hq with ⟨v, hv, rfl⟩
    exact ⟨hu, hv⟩
  · rintro ⟨h1, h2⟩
    refine List.mem_flatMap.mpr ⟨q.1, h1, ?_⟩
    exact List.mem_map.mpr ⟨q.2, h2, rfl⟩

/--
What the nested scan computes: either no username-distinct pair beats the
starting accumulator, or the result is the first pair strictly improving on
everything scanned before it and at least as good as everything after.
-/
theorem scanFold_spec (l : List (Player × Player)) (acc : Option (Player × Player) × Int) :
    (l.foldl scanStep acc = acc ∧
      ∀ p ∈ l, p.1.username ≠ p.2.username → acc.2 ≤ ratingDiff p) ∨
    (∃ l1 p l2, l = l1 ++ p :: l2 ∧ p.1.username ≠ p.2.username ∧
      l.foldl scanStep acc = (some p, ratingDiff p) ∧ ratingDiff p < acc.2 ∧
      (∀ q ∈ l1, q.1.username ≠ q.2.username → ratingDiff p < ratingDiff q) ∧
      (∀ q ∈ l2, q.1.username ≠ q.2.username → ratingDiff p ≤ ratingDiff q)) := by
  induction l generalizing acc with
  | nil => exact Or.inl ⟨rfl, by simp⟩
  | cons x xs ih =>
    by_cases hn : x.1.username = x.2.username
    · have hstep : scanStep acc x = acc := by simp [scanStep, hn]
      rcases ih acc with ⟨h1, h2⟩ | ⟨l1, p, l2, heq, hpn, hfold, hlt, hbefore, hafter⟩
      · refine Or.inl ⟨by rw [List.foldl_cons, hstep]; exact h1, ?_⟩
        intro p hp hpn
        rcases List.mem_cons.mp hp with rfl | hp'
        · exact absurd hn hpn
        · exact h2 p hp' hpn
      · refine Or.inr ⟨x :: l1, p, l2, by rw [heq]; rfl, hpn, ?_, hlt, ?_, hafter⟩
        · rw [List.foldl_cons, hstep]
          exact hfold
        · intro q hq hqn
          rcases List.mem_cons.mp hq with rfl | hq'
          · exact absurd hn hqn
          · exact hbefore q hq' hqn
    · by_cases hlt0 : ratingDiff x < acc.2
      · have hstep : scanStep acc x = (some x, ratingDiff x) := by simp [scanStep, hn, hlt0]
        rcases ih (some x, ratingDiff x) with ⟨h1, h2⟩ |
          ⟨l1, p, l2, heq, hpn, hfold, hlt, hbefore, hafter⟩
        · refine Or.inr ⟨[], x, xs, rfl, hn, ?_, hlt0, by simp, ?_⟩
          · rw [List.foldl_cons, hstep]
            exact h1
          · intro q hq hqn
            exact h2 q hq hqn
        · refine Or.inr ⟨x :: l1, p, l2, by rw [heq]; rfl, hpn, ?_, ?_, ?_, hafter⟩
          · rw [List.foldl_cons, hstep]
            exact hfold
          · exact lt_trans hlt hlt0
          · intro q hq hqn
            rcases List.mem_cons.mp hq with rfl | hq'
            · exact hlt
            · exact hbefore q hq' hqn
      · have hstep : scanStep acc x = acc := by simp [scanStep, hn, hlt0]
        rcases ih acc with ⟨h1, h2⟩ | ⟨l1, p, l2, heq, hpn, hfold, hlt, hbefore, hafter⟩
        · refine Or.inl ⟨by rw [List.foldl_cons, hstep]; exact h1, ?_⟩
          intro p hp hpn
          rcases List.mem_cons.mp hp with rfl | hp'
          · exact not_lt.mp hlt0
          · exact h2 p hp' hpn
        · refine Or.inr ⟨x :: l1, p, l2, by rw [heq]; rfl, hpn, ?_, hlt, ?_, hafter⟩
          · rw [List.foldl_cons, hstep]
            exact hfold
          · intro q hq hqn
            rcases List.mem_cons.mp hq with rfl | hq'
            · exact lt_of_lt_of_le hlt (not_lt.mp hlt0)
            · exact hbefore q hq' hqn

/--
C6 (amended): `pop_closest_pair` raises `QueueTooSmall` exactly below two
entries; with two or more entries and some username-distinct pair of rating
difference below the internal sentinel 100000000, it removes and returns a
closest pair - the first minimum in scan order - leaving the rest in order;
on ratings 2, 4, 5 it returns the 4 and 5 entries and leaves the 2 entry.
-/
theorem claim_C6_popClosestPair (users : List Player) :
    (popClosestPair users = .error .queueTooSmall ↔ users.length < 2) ∧
    (2 ≤ users.length →
      (∃ w ∈ allPairs users, w.1.username ≠ w.2.username ∧ ratingDiff w < 100000000) →
      ∃ a b, popClosestPair users =
          .ok ((a, b), removeByName b.username (removeByName a.username users)) ∧
        a ∈ users ∧ b ∈ users ∧ a.username ≠ b.username ∧
        (∀ q ∈ allPairs users, q.1.username ≠ q.2.username →
          ratingDiff (a, b) ≤ ratingDiff q) ∧
        (∃ l1 l2, allPairs users = l1 ++ (a, b) :: l2 ∧
          ∀ q ∈ l1, q.1.username ≠ q.2.username → ratingDiff (a, b) < ratingDiff q)) ∧
    popClosestPair [⟨[97], 2⟩, ⟨[98], 4⟩, ⟨[99], 5⟩] =
      .ok ((⟨[98], 4⟩, ⟨[99], 5⟩), [⟨[97], 2⟩]) := by
  refine ⟨?_, ?_, by rfl⟩
  · unfold popClosestPair
    split_ifs with h
    · simp [h]
    · rcases hscan : (scanBest users).1 with _ | pr
      · simp [h]
      · obtain ⟨a, b⟩ := pr
        simp [h]
  · intro hlen ⟨w, hw, hwn, hwlt⟩
    rcases scanFold_spec (allPairs users) (none, 100000000) with ⟨_, h2⟩ |
      ⟨l1, p, l2, heq, hpn, hfold, _, hbefore, hafter⟩
    · exact absurd (h2 w hw hwn) (not_le.mpr hwlt)
    · have hscan : scanBest users = (some p, ratingDiff p) := hfold
      refine ⟨p.1, p.2, ?_, ?_, ?_, hpn, ?_, ⟨l1, l2, by simpa using heq, hbefore⟩⟩
      · unfold popClosestPair
        rw [if_neg (not_lt.mpr hlen), hscan]
      · exact (mem_allPairs.mp (heq ▸ List.mem_append_right l1 (List.mem_cons_self p l2))).1
      · exact (mem_allPairs.mp (heq ▸ List.mem_append_right l1 (List.mem_cons_self p l2))).2
      · intro q hq hqn
        rw [heq] at hq
        rcases List.mem_append.mp hq with hq1 | hq2
        · exact le_of_lt (hbefore q hq1 hqn)
        · rcases List.mem_cons.mp hq2 with rfl | hq3
          · exact le_refl _
          · exact hafter q hq3 hqn

/--
Counterexample to C6 as stated: with two username-distinct entries whose
rating difference reaches the internal sentinel 100000000, the function
neither raises `QueueTooSmall` nor returns any pair - the scan finds no
candidate and the dequeue of `None` crashes.
-/
theorem claim_C6_counterexample :
    popClosestPair [⟨[97], 0⟩, ⟨[98], 100000000⟩] = .error .scanFailed ∧
    ¬ (([⟨[97], 0⟩, ⟨[98], 100000000⟩] : List Player).length < 2) :=
  ⟨by rfl, by decide⟩

end Checkers

namespace Checkers

/--
Witness for C6 at ratings 2, 4, 5 with distinct usernames: the hypotheses of
the amended claim hold and the minimal pair is produced.
-/
theorem claim_C6_witness :
    ∃ a b, popClosestPair [⟨[97], 2⟩, ⟨[98], 4⟩, ⟨[99], 5⟩] =
        .ok ((a, b),
          removeByName b.username
            (removeByName a.username [⟨[97], 2⟩, ⟨[98], 4⟩, ⟨[99], 5⟩])) ∧
      a ∈ ([⟨[97], 2⟩, ⟨[98], 4⟩, ⟨[99], 5⟩] : List Player) ∧
      b ∈ ([⟨[97], 2⟩, ⟨[98], 4⟩, ⟨[99], 5⟩] : List Player) ∧
      a.username ≠ b.username ∧
      (∀ q ∈ allPairs [⟨[97], 2⟩, ⟨[98], 4⟩, ⟨[99], 5⟩],
        q.1.username ≠ q.2.username → ratingDiff (a, b) ≤ ratingDiff q) ∧
      (∃ l1 l2, allPairs [⟨[97], 2⟩, ⟨[98], 4⟩, ⟨[99], 5⟩] = l1 ++ (a, b) :: l2 ∧
        ∀ q ∈ l1, q.1.username ≠ q.2.username → ratingDiff (a, b) < ratingDiff q) :=
  (claim_C6_popClosestPair [⟨[97], 2⟩, ⟨[98], 4⟩, ⟨[99], 5⟩]).2.1 (by decide)
    ⟨(⟨[98], 4⟩, ⟨[99], 5⟩), by decide, by decide, by decide⟩

end Checkers

namespace Checkers

/-! ## C1: codec round trip -/

set_option maxRecDepth 40000 in
/--
C1 (failing input): a `YourTurn` carrying a board with a single piece at flat
index 0 decodes from its own encoding to the board REVERSED (the piece at flat
index 63), because `Board.to_bytes` places cell i at bit 3i from the least
significant end while `Board.from_bytes` reads cell i from bit 3(63-i);
messages without Board fields (here a `Connect`) do round-trip.
-/
theorem claim_C1_roundtrip_failure :
    decodeMsg (encodeMsg c1FailMsg) =
      some (.yourTurn sentinelMove (List.reverse c1FailBoard)) ∧
    decodeMsg (encodeMsg c1FailMsg) ≠ some c1FailMsg ∧
    decodeMsg (encodeMsg (.connect 1 [99, 97, 109] [109, 97, 99])) =
      some (.connect 1 [99, 97, 109] [109, 97, 99]) := by
  refine ⟨by decide, by decide, by decide⟩

/-! ## C2: stream re-parse slicing -/

/--
C2 (failing input): on the concatenation of an encoded `ReQueue` (tag 0x0B,
empty body) and an encoded `LogOut` (tag 0x0C), the handler decodes `ReQueue`
and re-invokes itself on `data[calc_size():]` - the WHOLE two-byte buffer,
since `calc_size()` omits the tag byte - so the claimed remainder [0x0C]
(which would decode as `LogOut`) is never reached and the handler recurses
forever.
-/
theorem claim_C2_stream_slice_bug :
    onDataStep [0x0B, 0x0C] = some (.reQueue, some [0x0B, 0x0C]) ∧
    claimedRemainder [0x0B, 0x0C] .reQueue = [0x0C] ∧
    decodeMsg [0x0C] = some .logOut ∧
    (∀ fuel, streamRun fuel [0x0B, 0x0C] = none) := by
  refine ⟨by decide, by rfl, by decide, ?_⟩
  intro fuel
  induction fuel with
  | zero => rfl
  | succ n ih =>
    rw [streamRun]
    rw [show onDataStep [0x0B, 0x0C] = some (.reQueue, some [0x0B, 0x0C]) from by decide]
    simp [ih]

end Checkers

namespace Checkers

/-! ## C8: duplicate login -/

/--
C8 (amended): a Connect with a supported version and valid credentials for a
username already enqueued is answered with `InvalidLogin(AlreadyLoggedIn)`,
the state stays as it was (`UNAUTHENTICATED` in context) and the connection
stays open - but the username and rating fields, assigned before the enqueue
attempt, retain the attempted identity.
-/
theorem claim_C8_duplicate_login (env : ServerEnv) (queue : List ByteStr) (s : SessionState)
    (version : Nat) (uname pwd : ByteStr)
    (hver : version ∈ supportedVersions)
    (hauth : env.auth uname pwd = .authOk)
    (hdup : uname ∈ queue) :
    msgOnUnauthenticated env queue s (.connect version uname pwd) =
      ⟨{ s with username := some uname, rating := some (env.ratingOf uname) }, queue,
        [.invalidLoginR .AlreadyLoggedIn], false⟩ := by
  simp only [msgOnUnauthenticated]
  rw [if_neg (not_not_intro hver), hauth, if_pos hdup]

/--
Counterexample to C8 as stated: at a concrete fresh session, supported
version, valid credentials and the username already enqueued, the reply and
state are as claimed but the identity IS set - the username field is not
none, refuting the claim's "no identity set".
-/
theorem claim_C8_counterexample :
    (msgOnUnauthenticated demoEnv [[97]] ⟨.UNAUTHENTICATED, none, none, false⟩
        (.connect 1 [97] [112])).sends = [.invalidLoginR .AlreadyLoggedIn] ∧
    (msgOnUnauthenticated demoEnv [[97]] ⟨.UNAUTHENTICATED, none, none, false⟩
        (.connect 1 [97] [112])).session.phase = .UNAUTHENTICATED ∧
    (msgOnUnauthenticated demoEnv [[97]] ⟨.UNAUTHENTICATED, none, none, false⟩
        (.connect 1 [97] [112])).closed = false ∧
    (msgOnUnauthenticated demoEnv [[97]] ⟨.UNAUTHENTICATED, none, none, false⟩
        (.connect 1 [97] [112])).session.username = some [97] ∧
    (msgOnUnauthenticated demoEnv [[97]] ⟨.UNAUTHENTICATED, none, none, false⟩
        (.connect 1 [97] [112])).session.username ≠ none := by
  refine ⟨by rfl, by rfl, by rfl, by rfl, by decide⟩

/--
Witness for C8 at the same concrete input, through the amended theorem.
-/
theorem claim_C8_witness :
    msgOnUnauthenticated demoEnv [[97]] ⟨.UNAUTHENTICATED, none, none, false⟩
        (.connect 1 [97] [112]) =
      ⟨⟨.UNAUTHENTICATED, some [97], some 1200, false⟩, [[97]],
        [.invalidLoginR .AlreadyLoggedIn], false⟩ :=
  claim_C8_duplicate_login demoEnv [[97]] ⟨.UNAUTHENTICATED, none, none, false⟩ 1 [97] [112]
    (by decide) (by rfl) (by decide)

/-! ## C9: MakeMove in GAME_END after opponent disconnect -/

/--
C9: after the opponent disconnects (game detached, state `GAME_END`), a
received `MakeMove` is logged and ignored - session, queue and socket remain
untouched - while a message outside the `GAME_END` table (here a `Connect`)
still takes the general disconnect path.
-/
theorem claim_C9_makeMove_leniency (s : SessionState) (q : List ByteStr) (mv : Move)
    (hphase : s.phase = .PROCESSING_GAME_STATE ∨ s.phase = .USER_MOVE) :
    ∃ s', onOpponentDisconnect s = some (s', [.opponentDisconnectR]) ∧
      s'.phase = .GAME_END ∧ s'.hasGame = false ∧
      msgOnGameEnd s' q (.makeMove mv) = some ⟨s', q, [], false⟩ ∧
      (msgOnGameEnd s' q (.connect 1 [] [])).map HandlerResult.closed = some true := by
  refine ⟨{ s with hasGame := false, phase := .GAME_END }, ?_, rfl, rfl, rfl, rfl⟩
  unfold onOpponentDisconnect
  rw [if_pos hphase]

/--
Witness for C9 at a concrete in-game session.
-/
theorem claim_C9_witness :
    ∃ s', onOpponentDisconnect ⟨.USER_MOVE, some [97], some 1200, true⟩ =
        some (s', [.opponentDisconnectR]) ∧
      s'.phase = .GAME_END ∧ s'.hasGame = false ∧
      msgOnGameEnd s' [] (.makeMove sentinelMove) = some ⟨s', [], [], false⟩ ∧
      (msgOnGameEnd s' [] (.connect 1 [] [])).map HandlerResult.closed = some true :=
  claim_C9_makeMove_leniency ⟨.USER_MOVE, some [97], some 1200, true⟩ [] sentinelMove
    (Or.inr rfl)

end Checkers

namespace Checkers

/-! ## C4: forced-capture resolution -/

theorem isPrimaryIn_playerOne (g : GameState) : isPrimaryIn g g.playerOne.username = true := by
  simp [isPrimaryIn]

theorem isPrimaryIn_playerTwo (g : GameState)
    (h : g.playerOne.username ≠ g.playerTwo.username) :
    isPrimaryIn g g.playerTwo.username = false := by
  simp [isPrimaryIn]
  exact fun hc => h hc.symm

theorem isPrimaryIn_opponent (g : GameState) (u : ByteStr)
    (h : g.playerOne.username ≠ g.playerTwo.username) :
    isPrimaryIn g (opponentOf g u).username = !(isPrimaryIn g u) := by
  by_cases hp : isPrimaryIn g u = true
  · simp [opponentOf, hp, isPrimaryIn_playerTwo g h]
  · simp only [Bool.not_eq_true] at hp
    simp [opponentOf, hp, isPrimaryIn_playerOne g]

theorem allowedDirFor_eq (g : GameState) (u : ByteStr) :
    allowedDirFor g u = dirOfSide (isPrimaryIn g u) := rfl

theorem choice_mem (c : Move) (cs : List Move) (i : Nat) :
    (c :: cs).getD (i % (c :: cs).length) c ∈ (c :: cs) := by
  have hlt : i % (c :: cs).length < (c :: cs).length := Nat.mod_lt _ (by simp)
  rw [List.getD_eq_getElem?_getD, List.getElem?_eq_getElem hlt]
  exact List.getElem_mem hlt

theorem processLoop_zero (oracle : Nat → Nat) (k : Nat) (g : GameState) (dir : Direction)
    (prim : Bool) (cands : List Move) (pin : Option (Int × Int)) (last : Option Move) :
    processLoop oracle 0 k g dir prim cands pin last = none := rfl

theorem processLoop_succ_nil (oracle : Nat → Nat) (fuel k : Nat) (g : GameState)
    (dir : Direction) (prim : Bool) (pin : Option (Int × Int)) (last : Option Move) :
    processLoop oracle (fuel + 1) k g dir prim [] pin last =
      some (g, [], [], last, pin, k) := rfl

theorem processLoop_succ_cons (oracle : Nat → Nat) (fuel k : Nat) (g : GameState)
    (dir : Direction) (prim : Bool) (c : Move) (cs : List Move) (pin : Option (Int × Int))
    (last : Option Move) (mv : Move)
    (hmv : mv = (c :: cs).getD (oracle k % (c :: cs).length) c) :
    processLoop oracle (fuel + 1) k g dir prim (c :: cs) pin last =
      (match applyMove g.board mv dir prim with
       | .error _ => none
       | .ok board' =>
         match processLoop oracle fuel (k + 1) { g with board := board' } dir prim
             ((getRequiredMoves board' dir prim).filter
               (fun x => x.pos == mv.afterDoubleMovePos))
             (some mv.afterDoubleMovePos) (some mv) with
         | none => none
         | some (g2, evs2, steps2, last2, pin2, k2) =>
           some (g2,
             [.compulsoryEvt g.playerOne.username mv
                (getBoardFor { g with board := board' } g.playerOne.username),
              .compulsoryEvt g.playerTwo.username mv
                (getBoardFor { g with board := board' } g.playerTwo.username)] ++ evs2,
             (⟨prim, g.board, mv, board'⟩ : CompStep) :: steps2, last2, pin2, k2)) := by
  subst hmv
  rfl

theorem processGameState_zero (oracle : Nat → Nat) (k : Nat) (g : GameState) :
    processGameState oracle 0 k g = none := rfl

theorem processGameState_succ (oracle : Nat → Nat) (fuel k : Nat) (g : GameState) :
    processGameState oracle (fuel + 1) k g =
      (match processLoop oracle fuel k g (allowedDirFor g g.nextToGo)
          (isPrimaryIn g g.nextToGo)
          (getRequiredMoves g.board (allowedDirFor g g.nextToGo) (isPrimaryIn g g.nextToGo))
          none none with
       | none => none
       | some (g1, evs, steps, last, pin, k1) =>
         match pin with
         | none => some (g1, evs, steps, last, k1)
         | some _ =>
           match processGameState oracle fuel k1
               { g1 with nextToGo := (opponentOf g1 g1.nextToGo).username } with
           | none => none
           | some (g3, evs3, steps3, last3, k3) =>
             some (g3, evs ++ evs3, steps ++ steps3, last3 <|> last, k3)) := rfl

theorem processLoop_steps_nil (oracle : Nat → Nat) (fuel k : Nat) (g : GameState)
    (dir : Direction) (prim : Bool) (cands : List Move) (pin : Option (Int × Int))
    (last : Option Move) (g1 : GameState) (evs : List GameEvent) (last1 : Option Move)
    (pin1 : Option (Int × Int)) (k1 : Nat)
    (h : processLoop oracle fuel k g dir prim cands pin last =
      some (g1, evs, [], last1, pin1, k1)) :
    cands = [] ∧ g1 = g ∧ evs = [] ∧ last1 = last ∧ pin1 = pin := by
  rcases fuel with _ | fuel
  · rw [processLoop_zero] at h
    exact absurd h (by simp)
  rcases cands with _ | ⟨c, cs⟩
  · rw [processLoop_succ_nil] at h
    simp only [Option.some.injEq, Prod.mk.injEq] at h
    exact ⟨rfl, h.1.symm, h.2.1.symm, h.2.2.2.1.symm, h.2.2.2.2.1.symm⟩
  · rw [processLoop_succ_cons oracle fuel k g dir prim c cs pin last _ rfl] at h
    split at h
    · exact absurd h (by simp)
    · split at h
      · exact absurd h (by simp)
      · simp at h
end Checkers

namespace Checkers

/--
Invariants of the compulsory-move while loop: players and turn are untouched;
every recorded application is of a required move of the board it was applied
to, by the fixed seat; the notifications are exactly two per application (raw
board to player one, translated board to player two); consecutive
applications chain through the boards and the `piece_to_move` pin; the first
application takes its move from the incoming candidate list; and when at
least one application happened the loop ends with no pinned continuation
left.
-/
theorem processLoop_spec (oracle : Nat → Nat) (dir : Direction) (prim : Bool) (fuel : Nat) :
    ∀ (k : Nat) (g : GameState) (cands : List Move) (pin : Option (Int × Int))
      (last : Option Move) (g1 : GameState) (evs : List GameEvent) (steps : List CompStep)
      (last1 : Option Move) (pin1 : Option (Int × Int)) (k1 : Nat),
      processLoop oracle fuel k g dir prim cands pin last =
        some (g1, evs, steps, last1, pin1, k1) →
      (∀ mv ∈ cands, mv ∈ getRequiredMoves g.board dir prim) →
      g.playerOne.username ≠ g.playerTwo.username →
      (g1.playerOne = g.playerOne ∧ g1.playerTwo = g.playerTwo ∧ g1.nextToGo = g.nextToGo) ∧
      (∀ st ∈ steps, st.sideIsPrimary = prim ∧
        applyMove st.boardBefore st.move dir prim = .ok st.boardAfter ∧
        st.move ∈ getRequiredMoves st.boardBefore dir prim) ∧
      evs = steps.flatMap (stepNotifs g.playerOne.username g.playerTwo.username) ∧
      List.Chain' stepLink steps ∧
      (∀ st, steps.head? = some st → st.boardBefore = g.board ∧ st.move ∈ cands) ∧
      (steps ≠ [] → ∃ ls, steps.getLast? = some ls ∧ g1.board = ls.boardAfter ∧
        last1 = some ls.move ∧ pin1 = some ls.move.afterDoubleMovePos ∧
        (getRequiredMoves g1.board dir prim).filter
          (fun x => x.pos == ls.move.afterDoubleMovePos) = []) := by
  induction fuel with
  | zero =>
    intro k g cands pin last g1 evs steps last1 pin1 k1 h
    rw [processLoop_zero] at h
    exact absurd h (by simp)
  | succ fuel ih =>
    intro k g cands pin last g1 evs steps last1 pin1 k1 h Hcand Hdd
    rcases cands with _ | ⟨c, cs⟩
    · rw [processLoop_succ_nil] at h
      simp only [Option.some.injEq, Prod.mk.injEq] at h
      obtain ⟨hg, hevs, hsteps, hlast, hpin, hk⟩ := h
      subst hg hevs hsteps hlast hpin
      refine ⟨⟨rfl, rfl, rfl⟩, by simp, by simp, by simp, by simp, ?_⟩
      intro hne
      exact absurd rfl hne
    · rw [processLoop_succ_cons oracle fuel k g dir prim c cs pin last
        ((c :: cs).getD (oracle k % (c :: cs).length) c) rfl] at h
      split at h
      · exact absurd h (by simp)
      next board' heqapp =>
        split at h
        · exact absurd h (by simp)
        next g2 evs2 steps2 last2 pin2 k2 heqrec =>
          simp only [Option.some.injEq, Prod.mk.injEq] at h
          obtain ⟨hg2, hevs, hsteps, hlast2, hpin2, hk2⟩ := h
          subst hg2 hevs hsteps hlast2 hpin2
          have hmvmem : (c :: cs).getD (oracle k % (c :: cs).length) c ∈ c :: cs :=
            choice_mem c cs (oracle k)
          have IH := ih (k + 1) { g with board := board' }
            ((getRequiredMoves board' dir prim).filter
              (fun x => x.pos ==
                ((c :: cs).getD (oracle k % (c :: cs).length) c).afterDoubleMovePos))
            (some ((c :: cs).getD (oracle k % (c :: cs).length) c).afterDoubleMovePos)
            (some ((c :: cs).getD (oracle k % (c :: cs).length) c))
            g2 evs2 steps2 last2 pin2 k2 heqrec
            (fun x hx => (List.mem_filter.mp hx).1) Hdd
          obtain ⟨⟨ihP1, ihP2, ihNext⟩, ihSteps, ihEvs, ihChain, ihHead, ihLast⟩ := IH
          have hview1 : getBoardFor { g with board := board' } g.playerOne.username =
              board' := by
            simp [getBoardFor, isPrimaryIn]
          have hbeq2 : (g.playerTwo.username == g.playerOne.username) = false :=
            beq_eq_false_iff_ne.mpr (fun hc => Hdd hc.symm)
          have hview2 : getBoardFor { g with board := board' } g.playerTwo.username =
              translateToOtherUser board' := by
            simp [getBoardFor, isPrimaryIn, hbeq2]
          refine ⟨⟨ihP1, ihP2, ihNext⟩, ?_, ?_, ?_, ?_, ?_⟩
          · intro st hst
            rcases List.mem_cons.mp hst with rfl | hst2
            · exact ⟨rfl, heqapp, Hcand _ hmvmem⟩
            · exact ihSteps st hst2
          · rw [hview1, hview2, ihEvs, List.flatMap_cons]
            rfl
          · rw [List.chain'_cons']
            refine ⟨?_, ihChain⟩
            intro y hy
            have hymem := List.mem_of_mem_head? hy
            have hyside := (ihSteps y hymem).1
            obtain ⟨hyboard, hycand⟩ := ihHead y hy
            refine ⟨by rw [hyboard], ?_, ?_⟩
            · intro _
              have := (List.mem_filter.mp hycand).2
              exact beq_iff_eq.mp this
            · intro hside
              exact absurd hyside.symm hside
          · intro st hst
            simp only [List.head?_cons, Option.some.injEq] at hst
            subst hst
            exact ⟨rfl, hmvmem⟩
          · intro _
            rcases steps2 with _ | ⟨x, xs⟩
            · obtain ⟨hcands', hg2g, hevs2b, hlast2b, hpin2b⟩ :=
                processLoop_steps_nil oracle fuel (k + 1) { g with board := board' } dir prim
                  _ _ _ g2 evs2 last2 pin2 k2 heqrec
              refine ⟨⟨prim, g.board, (c :: cs).getD (oracle k % (c :: cs).length) c, board'⟩,
                rfl, ?_, ?_, ?_, ?_⟩
              · rw [hg2g]
              · rw [hlast2b]
              · rw [hpin2b]
              · rw [hg2g]
                exact hcands'
            · obtain ⟨ls2, hlsget, hlsb, hlslast, hlspin, hlsfilter⟩ :=
                ihLast (by simp)
              refine ⟨ls2, ?_, hlsb, hlslast, hlspin, hlsfilter⟩
              rw [List.getLast?_cons_cons]
              exact hlsget

end Checkers

namespace Checkers

theorem mem_of_getLast?_eq {α : Type _} {l : List α} {a : α} (h : l.getLast? = some a) :
    a ∈ l := by
  induction l with
  | nil => exact absurd h (by simp)
  | cons x xs ih =>
    rcases xs with _ | ⟨y, ys⟩
    · simp only [List.getLast?_singleton, Option.some.injEq] at h
      simp [h]
    · rw [List.getLast?_cons_cons] at h
      exact List.mem_cons_of_mem x (ih h)

/--
Invariants of the full alternating forced-capture resolution: players are
preserved, every recorded application is a required move of its own board for
its own seat, both players are notified of each, the applications chain (same
seat continues from the pin, the seat flips only when the pinned list is
empty), the first application is an unpinned required move of the side that
just received the turn, and the run ends with the side to move having no
required move at all.
-/
theorem processGameState_spec (oracle : Nat → Nat) (fuel : Nat) :
    ∀ (k : Nat) (g g' : GameState) (evs : List GameEvent) (steps : List CompStep)
      (last : Option Move) (k' : Nat),
      processGameState oracle fuel k g = some (g', evs, steps, last, k') →
      g.playerOne.username ≠ g.playerTwo.username →
      (g'.playerOne = g.playerOne ∧ g'.playerTwo = g.playerTwo) ∧
      (∀ st ∈ steps,
        applyMove st.boardBefore st.move (dirOfSide st.sideIsPrimary) st.sideIsPrimary =
          .ok st.boardAfter ∧
        st.move ∈ getRequiredMoves st.boardBefore (dirOfSide st.sideIsPrimary)
          st.sideIsPrimary) ∧
      evs = steps.flatMap (stepNotifs g.playerOne.username g.playerTwo.username) ∧
      List.Chain' stepLink steps ∧
      (∀ st, steps.head? = some st → st.boardBefore = g.board ∧
        st.sideIsPrimary = isPrimaryIn g g.nextToGo ∧
        st.move ∈ getRequiredMoves g.board (allowedDirFor g g.nextToGo)
          (isPrimaryIn g g.nextToGo)) ∧
      getRequiredMoves g'.board (allowedDirFor g' g'.nextToGo) (isPrimaryIn g' g'.nextToGo)
        = [] ∧
      (steps = [] → g' = g ∧ evs = [] ∧ last = none) ∧
      (steps ≠ [] → ∃ ls, steps.getLast? = some ls ∧ g'.board = ls.boardAfter ∧
        last = some ls.move) := by
  induction fuel with
  | zero =>
    intro k g g' evs steps last k' h
    rw [processGameState_zero] at h
    exact absurd h (by simp)
  | succ fuel ih =>
    intro k g g' evs steps last k' h Hdd
    rw [processGameState_succ] at h
    split at h
    · exact absurd h (by simp)
    next g1 evs1 steps1 last1 pin k1 heqloop =>
      have Lp := processLoop_spec oracle (allowedDirFor g g.nextToGo)
        (isPrimaryIn g g.nextToGo) fuel k g _ none none g1 evs1 steps1 last1 pin k1 heqloop
        (fun mv hmv => hmv) Hdd
      obtain ⟨⟨hP1, hP2, hNext⟩, lpSteps, lpEvs, lpChain, lpHead, lpLast⟩ := Lp
      split at h
      -- pin = none: no compulsory move was made
      · simp only [Option.some.injEq, Prod.mk.injEq] at h
        obtain ⟨hg, hevs, hsteps, hlast, hk⟩ := h
        subst hg hevs hsteps hlast
        have hsteps1 : steps1 = [] := by
          rcases hsn : steps1 with _ | ⟨x, xs⟩
          · rfl
          · obtain ⟨ls, _, _, _, hpinv, _⟩ := lpLast (by simp [hsn])
            exact absurd hpinv (by simp)
        subst hsteps1
        obtain ⟨hcands, hg1, hevs1, hlast1, _⟩ := processLoop_steps_nil oracle fuel k g
          _ _ _ _ _ g1 evs1 last1 none k1 heqloop
        subst hg1
        refine ⟨⟨rfl, rfl⟩, by simp, by simpa using hevs1, by simp, by simp, ?_, ?_, ?_⟩
        · exact hcands
        · exact fun _ => ⟨rfl, hevs1, hlast1⟩
        · intro hne
          exact absurd rfl hne
      -- pin = some: at least one compulsory move, turn passed, search restarted
      next pinval =>
        split at h
        · exact absurd h (by simp)
        next g3 evs3 steps3 last3 k3 heqrec2 =>
          simp only [Option.some.injEq, Prod.mk.injEq] at h
          obtain ⟨hg, hevs, hsteps, hlast, hk⟩ := h
          subst hg hevs hsteps hlast
          have hne1 : steps1 ≠ [] := by
            intro hcontra
            obtain ⟨_, _, _, _, hpineq⟩ := processLoop_steps_nil oracle fuel k g
              _ _ _ _ _ g1 evs1 last1 (some pinval) k1 (by rw [heqloop, hcontra])
            exact absurd hpineq (by simp)
          obtain ⟨ls1, hls1get, hls1board, hls1last, hls1pin, hls1filter⟩ := lpLast hne1
          have hls1mem : ls1 ∈ steps1 := mem_of_getLast?_eq hls1get
          have hls1side : ls1.sideIsPrimary = isPrimaryIn g g.nextToGo :=
            (lpSteps ls1 hls1mem).1
          have hu1 : ({ g1 with nextToGo := (opponentOf g1 g1.nextToGo).username } :
              GameState).playerOne = g.playerOne := hP1
          have hu2 : ({ g1 with nextToGo := (opponentOf g1 g1.nextToGo).username } :
              GameState).playerTwo = g.playerTwo := hP2
          have Hdd2 : ({ g1 with nextToGo := (opponentOf g1 g1.nextToGo).username } :
              GameState).playerOne.username ≠
              ({ g1 with nextToGo := (opponentOf g1 g1.nextToGo).username } :
              GameState).playerTwo.username := by
            rw [hu1, hu2]
            exact Hdd
          have IH := ih k1 { g1 with nextToGo := (opponentOf g1 g1.nextToGo).username }
            g3 evs3 steps3 last3 k3 heqrec2 Hdd2
          obtain ⟨⟨ihP1, ihP2⟩, ihSteps, ihEvs, ihChain, ihHead, ihFinal, ihNil, ihNe⟩ := IH
          have hg1dd : g1.playerOne.username ≠ g1.playerTwo.username := by
            rw [hP1, hP2]
            exact Hdd
          have hoppside : isPrimaryIn g1 (opponentOf g1 g1.nextToGo).username =
              !(isPrimaryIn g1 g1.nextToGo) := isPrimaryIn_opponent g1 g1.nextToGo hg1dd
          have hg1side : isPrimaryIn g1 g1.nextToGo = isPrimaryIn g g.nextToGo := by
            unfold isPrimaryIn
            rw [hNext, hP1]
          refine ⟨⟨ihP1.trans hu1, ihP2.trans hu2⟩, ?_, ?_, ?_, ?_, ?_, ?_, ?_⟩
          · intro st hst
            rcases List.mem_append.mp hst with hst1 | hst3
            · obtain ⟨hside, happ, hmem⟩ := lpSteps st hst1
              rw [hside]
              exact ⟨happ, hmem⟩
            · exact ihSteps st hst3
          · rw [List.flatMap_append, lpEvs, ihEvs, hu1, hu2]
          · refine List.Chain'.append lpChain ihChain ?_
            intro x hx y hy
            rw [hls1get, Option.mem_def, Option.some.injEq] at hx
            subst hx
            obtain ⟨hyb, hyside, _⟩ := ihHead y hy
            have hysideval : y.sideIsPrimary = !(isPrimaryIn g g.nextToGo) := by
              rw [hyside]
              show isPrimaryIn g1 (opponentOf g1 g1.nextToGo).username = _
              rw [hoppside, hg1side]
            refine ⟨?_, ?_, ?_⟩
            · rw [hyb]
              show g1.board = ls1.boardAfter
              rw [hls1board]
            · intro hsame
              rw [hls1side, hysideval] at hsame
              exact absurd hsame (by simp)
            · intro _
              rw [hls1side, ← hls1board]
              exact hls1filter
          · intro st hst
            rw [List.head?_append_of_ne_nil steps1 hne1] at hst
            obtain ⟨hb, hm⟩ := lpHead st hst
            have hside := (lpSteps st (List.mem_of_mem_head? hst)).1
            exact ⟨hb, hside, hm⟩
          · exact ihFinal
          · intro hcontra
            exact absurd (List.append_eq_nil.mp hcontra).1 hne1
          · intro _
            rcases hs3 : steps3 with _ | ⟨z, zs⟩
            · obtain ⟨hg3, hevs3, hlast3⟩ := ihNil hs3
              subst hs3
              refine ⟨ls1, ?_, ?_, ?_⟩
              · rw [List.append_nil]
                exact hls1get
              · rw [hg3]
                show g1.board = ls1.boardAfter
                exact hls1board
              · rw [hlast3, hls1last]
                rfl
            · obtain ⟨ls3, hls3get, hls3board, hls3last⟩ := ihNe (by simp [hs3])
              rw [hs3] at hls3get
              refine ⟨ls3, ?_, hls3board, ?_⟩
              · rw [List.getLast?_append, hls3get]
                rfl
              · rw [hls3last]
                rfl

end Checkers

namespace Checkers

theorem gameApplyMove_success (oracle : Nat → Nat) (fuel k : Nat) (g : GameState) (mv : Move)
    (user : ByteStr) (out : List GameEvent × List CompStep) (gFin : GameState)
    (h : gameApplyMove oracle fuel k g mv user = (.ok out, gFin)) :
    g.nextToGo = user ∧
    ∃ b' r, applyMove g.board mv (allowedDirFor g user) (isPrimaryIn g user) = .ok b' ∧
      processGameState oracle fuel k
        ⟨g.playerOne, g.playerTwo, b', (opponentOf g user).username⟩ = some r ∧
      out.2 = r.2.2.1 ∧ gFin = r.1 := by
  unfold gameApplyMove at h
  split_ifs at h with hturn
  · exact absurd h (by simp)
  · have huser : g.nextToGo = user := not_not.mp hturn
    refine ⟨huser, ?_⟩
    split at h
    · exact absurd h (by simp)
    next b' happ =>
      dsimp only at h
      split at h
      · exact absurd h (by simp)
      next g2 evs2 steps2 last2 k2 heqp =>
        refine ⟨b', (g2, evs2, steps2, last2, k2), happ, heqp, ?_⟩
        split_ifs at h <;>
          simp only [Prod.mk.injEq, Except.ok.injEq] at h <;>
          exact ⟨by rw [← h.1], h.2.symm⟩

/--
C4: after a successfully applied player move the turn passes to the opponent
and forced-capture resolution runs there; in every resolution run each
compulsory move is drawn from the required (capturing) moves of the board it
is applied to - the unpinned list for the side that just got the turn, the
continuation of its own previous capture otherwise (the seat flipping exactly
when the pinned continuation is empty) - both sessions are notified of each,
and the run stops with the side to move having no required move. The
random choice is modelled by a universally quantified index oracle.
-/
theorem claim_C4_forced_capture (oracle : Nat → Nat) (fuel k : Nat) (g g' : GameState)
    (evs : List GameEvent) (steps : List CompStep) (last : Option Move) (k' : Nat)
    (hrun : processGameState oracle fuel k g = some (g', evs, steps, last, k'))
    (hdd : g.playerOne.username ≠ g.playerTwo.username) :
    (∀ st ∈ steps,
      applyMove st.boardBefore st.move (dirOfSide st.sideIsPrimary) st.sideIsPrimary =
        .ok st.boardAfter ∧
      st.move ∈ getRequiredMoves st.boardBefore (dirOfSide st.sideIsPrimary)
        st.sideIsPrimary) ∧
    evs = steps.flatMap (stepNotifs g.playerOne.username g.playerTwo.username) ∧
    List.Chain' stepLink steps ∧
    (∀ st, steps.head? = some st → st.boardBefore = g.board ∧
      st.sideIsPrimary = isPrimaryIn g g.nextToGo ∧
      st.move ∈ getRequiredMoves g.board (allowedDirFor g g.nextToGo)
        (isPrimaryIn g g.nextToGo)) ∧
    getRequiredMoves g'.board (allowedDirFor g' g'.nextToGo) (isPrimaryIn g' g'.nextToGo)
      = [] ∧
    (∀ mv user out gFin, gameApplyMove oracle fuel k g mv user = (.ok out, gFin) →
      g.nextToGo = user ∧
      ∃ b' r, applyMove g.board mv (allowedDirFor g user) (isPrimaryIn g user) = .ok b' ∧
        processGameState oracle fuel k
          ⟨g.playerOne, g.playerTwo, b', (opponentOf g user).username⟩ = some r) := by
  obtain ⟨_, hSteps, hEvs, hChain, hHead, hFinal, _, _⟩ :=
    processGameState_spec oracle fuel k g g' evs steps last k' hrun hdd
  refine ⟨hSteps, hEvs, hChain, hHead, hFinal, ?_⟩
  intro mv user out gFin hgame
  obtain ⟨huser, b', r, happ, heqp, _⟩ := gameApplyMove_success oracle fuel k g mv user out
    gFin hgame
  exact ⟨huser, b', r, happ, heqp⟩

end Checkers

namespace Checkers

/--
Witness for C4: on the concrete capture position the resolution run applies
exactly the one required capture, notifying both players, and ends with the
opponent having no required move.
-/
theorem claim_C4_witness :
    (∀ st ∈ ([⟨true, c4Board, c4Move, applyNoCheck c4Board c4Move⟩] : List CompStep),
      applyMove st.boardBefore st.move (dirOfSide st.sideIsPrimary) st.sideIsPrimary =
        .ok st.boardAfter ∧
      st.move ∈ getRequiredMoves st.boardBefore (dirOfSide st.sideIsPrimary)
        st.sideIsPrimary) ∧
    getRequiredMoves (applyNoCheck c4Board c4Move)
      (allowedDirFor ⟨⟨[97], 1200⟩, ⟨[98], 1201⟩, applyNoCheck c4Board c4Move, [98]⟩ [98])
      (isPrimaryIn ⟨⟨[97], 1200⟩, ⟨[98], 1201⟩, applyNoCheck c4Board c4Move, [98]⟩ [98]) =
      [] := by
  have h := claim_C4_forced_capture (fun _ => 0) 3 0 c4Game
    ⟨⟨[97], 1200⟩, ⟨[98], 1201⟩, applyNoCheck c4Board c4Move, [98]⟩
    [.compulsoryEvt [97] c4Move (applyNoCheck c4Board c4Move),
     .compulsoryEvt [98] c4Move (translateToOtherUser (applyNoCheck c4Board c4Move))]
    [⟨true, c4Board, c4Move, applyNoCheck c4Board c4Move⟩] (some c4Move) 1
    (by decide) (by decide)
  exact ⟨h.1, h.2.2.2.2.1⟩

end Checkers
